import Mathlib

/-
Verification of the Slic3r model-core slice (ingrimsch/Slic3r) against its
natural-language specification.

The development shallowly embeds the data model and the operations of
src/libslic3r/Model.cpp, the cut-gizmo state of src/slic3r/GUI/GLGizmo.cpp
and the SLA support-tree interface of src/libslic3r/SLA/SLASupportTree.hpp.

Coordinates are embedded as rational numbers: every geometric computation of
the source that the claims exercise is affine arithmetic, min/max and
comparisons, which the rationals model exactly.  Angles are carried in
degrees (the trigonometric evaluation of Geometry.cpp is not part of src/,
see the comment at cosDeg below).  The 32-bit unsigned counter of
Model::get_auto_extruder_id is embedded as a natural number reduced mod 2^32
at the one place the source can overflow it.
-/

namespace Slic3rSpec

/-- A 3-vector of exact rational coordinates, standing for Eigen Vec3d. -/
structure Vec3 where
  x : ℚ
  y : ℚ
  z : ℚ
deriving DecidableEq

namespace Vec3

def add (a b : Vec3) : Vec3 := ⟨a.x + b.x, a.y + b.y, a.z + b.z⟩

def sub (a b : Vec3) : Vec3 := ⟨a.x - b.x, a.y - b.y, a.z - b.z⟩

def neg (a : Vec3) : Vec3 := ⟨-a.x, -a.y, -a.z⟩

/-- Componentwise product, standing for Eigen cwiseProduct. -/
def cwise (a b : Vec3) : Vec3 := ⟨a.x * b.x, a.y * b.y, a.z * b.z⟩

def smul (q : ℚ) (a : Vec3) : Vec3 := ⟨q * a.x, q * a.y, q * a.z⟩

def cmin (a b : Vec3) : Vec3 := ⟨min a.x b.x, min a.y b.y, min a.z b.z⟩

def cmax (a b : Vec3) : Vec3 := ⟨max a.x b.x, max a.y b.y, max a.z b.z⟩

instance : Add Vec3 := ⟨Vec3.add⟩
instance : Sub Vec3 := ⟨Vec3.sub⟩
instance : Neg Vec3 := ⟨Vec3.neg⟩

def zero : Vec3 := ⟨0, 0, 0⟩
def ones : Vec3 := ⟨1, 1, 1⟩

instance : Inhabited Vec3 := ⟨zero⟩

end Vec3

/-- A 3x3 rational matrix given by its rows. -/
structure Mat3 where
  r0 : Vec3
  r1 : Vec3
  r2 : Vec3
deriving DecidableEq

namespace Mat3

def dot (a b : Vec3) : ℚ := a.x * b.x + a.y * b.y + a.z * b.z

def mulVec (m : Mat3) (v : Vec3) : Vec3 :=
  ⟨dot m.r0 v, dot m.r1 v, dot m.r2 v⟩

def col0 (m : Mat3) : Vec3 := ⟨m.r0.x, m.r1.x, m.r2.x⟩
def col1 (m : Mat3) : Vec3 := ⟨m.r0.y, m.r1.y, m.r2.y⟩
def col2 (m : Mat3) : Vec3 := ⟨m.r0.z, m.r1.z, m.r2.z⟩

def mul (a b : Mat3) : Mat3 :=
  ⟨⟨dot a.r0 (col0 b), dot a.r0 (col1 b), dot a.r0 (col2 b)⟩,
   ⟨dot a.r1 (col0 b), dot a.r1 (col1 b), dot a.r1 (col2 b)⟩,
   ⟨dot a.r2 (col0 b), dot a.r2 (col1 b), dot a.r2 (col2 b)⟩⟩

def idm : Mat3 := ⟨⟨1, 0, 0⟩, ⟨0, 1, 0⟩, ⟨0, 0, 1⟩⟩

/-- Diagonal matrix from a vector. -/
def diag (v : Vec3) : Mat3 := ⟨⟨v.x, 0, 0⟩, ⟨0, v.y, 0⟩, ⟨0, 0, v.z⟩⟩

end Mat3

/-- An affine map x -> A x + t, standing for Eigen Transform3d. -/
structure Affine where
  A : Mat3
  t : Vec3
deriving DecidableEq

namespace Affine

def apply (f : Affine) (v : Vec3) : Vec3 := f.A.mulVec v + f.t

def comp (f g : Affine) : Affine := ⟨f.A.mul g.A, f.A.mulVec g.t + f.t⟩

def idA : Affine := ⟨Mat3.idm, Vec3.zero⟩

end Affine

/-- Modelled from the spec: the trigonometric evaluation used by
Geometry::assemble_transform (Geometry.cpp is not among the given sources).
The embedding carries angles in degrees; cosDeg is exact on the quarter-turn
angles, which are the only angles any theorem below evaluates concretely
(every general theorem holds for arbitrary values of these functions). -/
def cosDeg (a : ℚ) : ℚ :=
  if a = 0 then 1 else if a = 180 ∨ a = -180 then -1 else 0

/-- Modelled from the spec: the sine companion of cosDeg, exact on
quarter-turn angles; see the comment at cosDeg. -/
def sinDeg (a : ℚ) : ℚ :=
  if a = 90 then 1 else if a = -90 then -1 else 0

/-- Modelled from the spec: Geometry::deg2rad converts the unit of an angle;
since this embedding carries all angles in degrees, the conversion is the
identity on the carried value. -/
def deg2rad (d : ℚ) : ℚ := d

/-- Rotation about the X axis by an angle in degrees. -/
def rotX (a : ℚ) : Mat3 :=
  ⟨⟨1, 0, 0⟩, ⟨0, cosDeg a, -sinDeg a⟩, ⟨0, sinDeg a, cosDeg a⟩⟩

/-- Rotation about the Y axis by an angle in degrees. -/
def rotY (a : ℚ) : Mat3 :=
  ⟨⟨cosDeg a, 0, sinDeg a⟩, ⟨0, 1, 0⟩, ⟨-sinDeg a, 0, cosDeg a⟩⟩

/-- Rotation about the Z axis by an angle in degrees. -/
def rotZ (a : ℚ) : Mat3 :=
  ⟨⟨cosDeg a, -sinDeg a, 0⟩, ⟨sinDeg a, cosDeg a, 0⟩, ⟨0, 0, 1⟩⟩

/-- Modelled from the spec: Geometry::assemble_transform (Geometry.cpp is not
among the given sources).  The source builds translation * rotZ * rotY *
rotX * scale(scaling cwise mirror); the linear part below composes in the
same order. -/
def assembleTransform (translation rotation scaling mirror : Vec3) : Affine :=
  ⟨(rotZ rotation.z).mul ((rotY rotation.y).mul
      ((rotX rotation.x).mul (Mat3.diag (rotation_scale_part scaling mirror)))),
   translation⟩
where
  rotation_scale_part (s m : Vec3) : Vec3 := s.cwise m

/-! ## Meshes and bounding boxes -/

/-- A triangle of a triangle soup (an stl_facet without its normal). -/
structure Tri where
  a : Vec3
  b : Vec3
  c : Vec3
deriving DecidableEq

/-- A triangle soup, standing for TriangleMesh.  The fields of the source
type that no claim mentions (repair statistics, shared vertices) are
omitted. -/
abbrev Mesh : Type := List Tri

/-- TriangleMesh::transform: apply an affine map to every vertex. -/
def meshTransform (f : Affine) (m : Mesh) : Mesh :=
  m.map fun t => ⟨f.apply t.a, f.apply t.b, f.apply t.c⟩

/-- TriangleMesh::translate. -/
def meshTranslate (d : Vec3) (m : Mesh) : Mesh :=
  m.map fun t => ⟨t.a + d, t.b + d, t.c + d⟩

/-- TriangleMesh::facets_count: the number of facets of the soup. -/
def facetsCount (m : Mesh) : ℕ := m.length

/-- Modelled from the spec: TriangleMesh::repair normalises a triangle soup
(the implementation is not among the given sources; the spec only says every
cut result is repaired).  On the exact soups of this embedding the repair is
the identity; no claim below depends on any finer behaviour of it. -/
def repairMesh (m : Mesh) : Mesh := m

/-- An axis-aligned bounding box with the defined flag of the source type
BoundingBoxf3 (min = max = 0 and defined = false when empty). -/
structure BBox where
  bmin : Vec3
  bmax : Vec3
  defined : Bool
deriving DecidableEq

namespace BBox

def empty : BBox := ⟨Vec3.zero, Vec3.zero, false⟩

instance : Inhabited BBox := ⟨empty⟩

/-- Modelled from the spec: BoundingBox3Base::merge(point)
(BoundingBox.cpp is not among the given sources): widen to contain the
point, or become the degenerate box at the point when still undefined. -/
def mergePt (bb : BBox) (p : Vec3) : BBox :=
  if bb.defined then ⟨bb.bmin.cmin p, bb.bmax.cmax p, true⟩
  else ⟨p, p, true⟩

/-- Modelled from the spec: BoundingBox3Base::merge(bbox): merging an
undefined box is a no-op. -/
def mergeBox (bb other : BBox) : BBox :=
  if other.defined then
    if bb.defined then ⟨bb.bmin.cmin other.bmin, bb.bmax.cmax other.bmax, true⟩
    else other
  else bb

/-- BoundingBox3Base::translate. -/
def translate (bb : BBox) (d : Vec3) : BBox :=
  ⟨bb.bmin + d, bb.bmax + d, bb.defined⟩

/-- BoundingBox3Base::size, the componentwise extent. -/
def size (bb : BBox) : Vec3 := bb.bmax - bb.bmin

/-- BoundingBox3Base::center. -/
def center (bb : BBox) : Vec3 := Vec3.smul (1/2) (bb.bmin + bb.bmax)

/-- The eight corners of the box. -/
def corners (bb : BBox) : List Vec3 :=
  [⟨bb.bmin.x, bb.bmin.y, bb.bmin.z⟩, ⟨bb.bmax.x, bb.bmin.y, bb.bmin.z⟩,
   ⟨bb.bmin.x, bb.bmax.y, bb.bmin.z⟩, ⟨bb.bmax.x, bb.bmax.y, bb.bmin.z⟩,
   ⟨bb.bmin.x, bb.bmin.y, bb.bmax.z⟩, ⟨bb.bmax.x, bb.bmin.y, bb.bmax.z⟩,
   ⟨bb.bmin.x, bb.bmax.y, bb.bmax.z⟩, ⟨bb.bmax.x, bb.bmax.y, bb.bmax.z⟩]

/-- Modelled from the spec: BoundingBoxf3::transformed (BoundingBox.cpp is
not among the given sources): the bounding box of the images of the eight
corners under the affine map; the defined flag is preserved. -/
def transformed (bb : BBox) (f : Affine) : BBox :=
  if bb.defined then
    ((bb.corners.map f.apply).foldl mergePt empty)
  else bb

/-- Modelled from the spec: BoundingBoxf3::contains(point). -/
def containsPt (bb : BBox) (p : Vec3) : Bool :=
  bb.bmin.x ≤ p.x && p.x ≤ bb.bmax.x &&
  bb.bmin.y ≤ p.y && p.y ≤ bb.bmax.y &&
  bb.bmin.z ≤ p.z && p.z ≤ bb.bmax.z

/-- Modelled from the spec: BoundingBoxf3::contains(bbox): both extreme
corners of the other box are contained. -/
def containsBox (bb other : BBox) : Bool :=
  bb.containsPt other.bmin && bb.containsPt other.bmax

/-- Modelled from the spec: BoundingBoxf3::intersects(bbox): the coordinate
intervals overlap on every axis. -/
def intersectsBox (bb other : BBox) : Bool :=
  bb.bmin.x ≤ other.bmax.x && other.bmin.x ≤ bb.bmax.x &&
  bb.bmin.y ≤ other.bmax.y && other.bmin.y ≤ bb.bmax.y &&
  bb.bmin.z ≤ other.bmax.z && other.bmin.z ≤ bb.bmax.z

end BBox

/-- The bounding box of the vertices of a triangle soup
(TriangleMesh::bounding_box). -/
def meshBBox (m : Mesh) : BBox :=
  m.foldl (fun bb t => ((bb.mergePt t.a).mergePt t.b).mergePt t.c) BBox.empty

/-- Modelled from the spec: TriangleMesh::transformed_bounding_box, the
bounding box of the transformed vertices (TriangleMesh.cpp is not among the
given sources). -/
def meshTransformedBBox (m : Mesh) (f : Affine) : BBox :=
  meshBBox (meshTransform f m)

/-! ## The plane cut of a triangle soup

Modelled from the spec: TriangleMeshSlicer::cut slices a mesh by the
horizontal plane at height z into an upper and a lower triangle soup
(TriangleMesh.cpp is not among the given sources).  Triangles entirely on or
above the plane go to the upper soup, triangles entirely on or below it (and
touching it in at most a vertex or an edge) go to the lower soup, and
triangles crossed strictly by the plane are split along it.  The section
polygon capping the two halves is not modelled: no claim below depends on
more than the facet counts and extents of the two soups. -/

/-- The point at height z on the segment from p to q (requires p.z and q.z
to be on strictly opposite sides of z, which every call site guarantees). -/
def interpZ (z : ℚ) (p q : Vec3) : Vec3 :=
  let t := (z - p.z) / (q.z - p.z)
  ⟨p.x + t * (q.x - p.x), p.y + t * (q.y - p.y), z⟩

/-- Split one triangle by the plane at height z; returns the upper and the
lower fragments. -/
def cutTri (z : ℚ) (t : Tri) : List Tri × List Tri :=
  let a := t.a; let b := t.b; let c := t.c
  if z ≤ a.z ∧ z ≤ b.z ∧ z ≤ c.z then ([t], [])
  else if a.z ≤ z ∧ b.z ≤ z ∧ c.z ≤ z then ([], [t])
  else
    -- the plane strictly separates the vertices; split by cases on which
    -- vertices lie strictly above.
    if z < a.z then
      if z < b.z then
        -- a, b above; c strictly below
        let pac := interpZ z a c
        let pbc := interpZ z b c
        ([⟨a, b, pbc⟩, ⟨a, pbc, pac⟩], [⟨pac, pbc, c⟩])
      else if z < c.z then
        -- a, c above; b strictly below
        let pab := interpZ z a b
        let pbc := interpZ z b c
        ([⟨c, a, pab⟩, ⟨c, pab, pbc⟩], [⟨pbc, pab, b⟩])
      else if b.z < z then
        if c.z < z then
          -- a above; b, c strictly below
          let pab := interpZ z a b
          let pca := interpZ z c a
          ([⟨a, pab, pca⟩], [⟨pab, b, c⟩, ⟨pab, c, pca⟩])
        else
          -- a above, b strictly below, c on the plane
          let pab := interpZ z a b
          ([⟨a, pab, c⟩], [⟨pab, b, c⟩])
      else
        -- a above, b on the plane, c strictly below
        let pac := interpZ z a c
        ([⟨a, b, pac⟩], [⟨b, c, pac⟩])
    else if z < b.z then
      if z < c.z then
        -- b, c above; a strictly below
        let pab := interpZ z a b
        let pca := interpZ z c a
        ([⟨b, c, pca⟩, ⟨b, pca, pab⟩], [⟨pab, pca, a⟩])
      else if c.z < z then
        if a.z < z then
          -- b above; c, a strictly below
          let pab := interpZ z a b
          let pbc := interpZ z b c
          ([⟨b, pbc, pab⟩], [⟨pbc, c, a⟩, ⟨pbc, a, pab⟩])
        else
          -- b above, c strictly below, a on the plane
          let pbc := interpZ z b c
          ([⟨b, pbc, a⟩], [⟨pbc, c, a⟩])
      else
        -- b above, c on the plane, a strictly below
        let pab := interpZ z a b
        ([⟨b, c, pab⟩], [⟨c, a, pab⟩])
    else
      -- c is the only vertex strictly above
      if a.z < z then
        if b.z < z then
          -- c above; a, b strictly below
          let pbc := interpZ z b c
          let pca := interpZ z c a
          ([⟨c, pca, pbc⟩], [⟨pca, a, b⟩, ⟨pca, b, pbc⟩])
        else
          -- c above, a strictly below, b on the plane
          let pca := interpZ z c a
          ([⟨c, pca, b⟩], [⟨pca, a, b⟩])
      else
        -- c above, b strictly below, a on the plane
        let pbc := interpZ z b c
        ([⟨c, a, pbc⟩], [⟨a, b, pbc⟩])

/-- The plane cut of a whole soup: concatenated fragments of every facet. -/
def meshCut (z : ℚ) (m : Mesh) : Mesh × Mesh :=
  (m.foldr (fun t acc => ((cutTri z t).1 ++ acc.1, (cutTri z t).2 ++ acc.2))
    ([], []))

/-! ## Transformations and the entity tree -/

/-- Geometry::Transformation: an offset, Euler rotation angles (degrees in
this embedding, see cosDeg), non-uniform scaling factors and a per-axis
mirror.  The source can also construct a Transformation from a raw affine
matrix (the constructor taken by ModelObject::cut for modifier volumes);
because the matrix decomposition of Geometry.cpp is not among the given
sources, such a transformation keeps its linear part verbatim in rawLinear
and no claim below reads the component fields of a matrix-built
transformation. -/
structure Trafo where
  offset : Vec3
  rotation : Vec3
  scaling : Vec3
  mirror : Vec3
  rawLinear : Option Mat3
deriving DecidableEq

namespace Trafo

/-- The default transformation: identity. -/
def idT : Trafo := ⟨Vec3.zero, Vec3.zero, Vec3.ones, Vec3.ones, none⟩

instance : Inhabited Trafo := ⟨idT⟩

/-- The linear part of the assembled matrix. -/
def linearPart (t : Trafo) : Mat3 :=
  match t.rawLinear with
  | some A => A
  | none => (assembleTransform t.offset t.rotation t.scaling t.mirror).A

/-- Geometry::Transformation::get_matrix() with every component applied. -/
def matrix (t : Trafo) : Affine := ⟨t.linearPart, t.offset⟩

/-- get_matrix(dont_translate = true): the translation is dropped. -/
def matrixNoOffset (t : Trafo) : Affine := ⟨t.linearPart, Vec3.zero⟩

/-- get_matrix(true, false, true, true): rotation only.  A matrix-built
transformation never reaches this call in the embedded source paths; for it
the raw linear part is kept. -/
def matrixRotationOnly (t : Trafo) : Affine :=
  match t.rawLinear with
  | some A => ⟨A, Vec3.zero⟩
  | none => ⟨(assembleTransform Vec3.zero t.rotation Vec3.ones Vec3.ones).A, Vec3.zero⟩

/-- Geometry::Transformation(matrix): keep the translation and the raw
linear part (see the comment at Trafo). -/
def fromMatrix (f : Affine) : Trafo :=
  ⟨f.t, Vec3.zero, Vec3.ones, Vec3.ones, some f.A⟩

/-- Geometry::Transformation::set_offset. -/
def setOffset (t : Trafo) (o : Vec3) : Trafo := { t with offset := o }

end Trafo

/-- ModelVolume::Type. -/
inductive VolumeType where
  | modelPart
  | parameterModifier
  | supportEnforcer
  | supportBlocker
deriving DecidableEq

/-- ModelVolume: a mesh, its convex hull, its own transformation and a type
tag.  The bookkeeping fields (name, config, material id) that no claim
mentions are omitted.  The stored convex hull is modelled by the mesh
itself: its only uses in the given sources are through transformed bounding
boxes and vertexwise minima, on which a point set and its convex hull agree
exactly. -/
structure ModelVolume where
  mesh : Mesh
  convexHull : Mesh
  trafo : Trafo
  vtype : VolumeType
deriving DecidableEq

namespace ModelVolume

/-- ModelVolume::is_model_part. -/
def is_model_part (v : ModelVolume) : Bool := v.vtype = VolumeType.modelPart

instance : Inhabited ModelVolume := ⟨⟨[], [], Trafo.idT, VolumeType.modelPart⟩⟩

/-- The ModelVolume(object, mesh) constructor: default transformation,
MODEL_PART type, convex hull computed from the mesh (modelled by the mesh
itself, see the comment at ModelVolume). -/
def ofMesh (m : Mesh) : ModelVolume := ⟨m, m, Trafo.idT, VolumeType.modelPart⟩

/-- ModelVolume::translate: with the volume transform enabled the offset is
shifted, the mesh is untouched. -/
def translate (v : ModelVolume) (d : Vec3) : ModelVolume :=
  { v with trafo := v.trafo.setOffset (v.trafo.offset + d) }

/-- ModelVolume::scale: the scaling factors are multiplied componentwise. -/
def scale (v : ModelVolume) (s : Vec3) : ModelVolume :=
  { v with trafo := { v.trafo with scaling := v.trafo.scaling.cwise s } }

/-- ModelVolume::mirror(axis): the mirror component of the axis flips. -/
def mirrorX (v : ModelVolume) : ModelVolume :=
  { v with trafo := { v.trafo with mirror := ⟨-v.trafo.mirror.x, v.trafo.mirror.y, v.trafo.mirror.z⟩ } }

def mirrorY (v : ModelVolume) : ModelVolume :=
  { v with trafo := { v.trafo with mirror := ⟨v.trafo.mirror.x, -v.trafo.mirror.y, v.trafo.mirror.z⟩ } }

def mirrorZ (v : ModelVolume) : ModelVolume :=
  { v with trafo := { v.trafo with mirror := ⟨v.trafo.mirror.x, v.trafo.mirror.y, -v.trafo.mirror.z⟩ } }

/-- ModelVolume::rotate(angle, axis): the source adds the Euler angles
extracted from the single-axis rotation to the stored rotation; for a
single-axis rotation that extraction is the angle on that axis (modelled
from the spec, Geometry.cpp is not among the given sources). -/
def rotateX (v : ModelVolume) (angle : ℚ) : ModelVolume :=
  { v with trafo := { v.trafo with rotation := v.trafo.rotation + ⟨angle, 0, 0⟩ } }

def rotateY (v : ModelVolume) (angle : ℚ) : ModelVolume :=
  { v with trafo := { v.trafo with rotation := v.trafo.rotation + ⟨0, angle, 0⟩ } }

def rotateZ (v : ModelVolume) (angle : ℚ) : ModelVolume :=
  { v with trafo := { v.trafo with rotation := v.trafo.rotation + ⟨0, 0, angle⟩ } }

/-- ModelVolume::center_geometry: shift the mesh and the hull so that the
mesh bounding box is centered at the origin, and compensate on the offset
(mesh.translate(shift); hull.translate(shift); translate(-shift)). -/
def center_geometry (v : ModelVolume) : ModelVolume :=
  let shift := -(meshBBox v.mesh).center
  { v with
    mesh := meshTranslate shift v.mesh
    convexHull := meshTranslate shift v.convexHull
    trafo := v.trafo.setOffset (v.trafo.offset + (-shift)) }

end ModelVolume

/-- ModelInstance::print_volume_state values. -/
inductive PVS where
  | inside
  | partlyOutside
  | fullyOutside
deriving DecidableEq

/-- ModelInstance: a placement of the owning object, plus the derived
print-volume classification (PVS_Inside at construction). -/
structure ModelInstance where
  trafo : Trafo
  printVolumeState : PVS
deriving DecidableEq

namespace ModelInstance

def default_ : ModelInstance := ⟨Trafo.idT, PVS.inside⟩

instance : Inhabited ModelInstance := ⟨default_⟩

/-- ModelInstance::transform_bounding_box: the box transformed by the full
instance matrix (the default dont_translate = false). -/
def transform_bounding_box (i : ModelInstance) (bb : BBox) : BBox :=
  bb.transformed i.trafo.matrix

/-- ModelInstance::transform_mesh_bounding_box (Model.cpp lines 1556-1593):
rotate the mesh about its origin, take the bounding box, scale each axis of
the box whose scaling factor differs from one by more than EPSILON, then
translate unless dont_translate.  EPSILON is 1/10000, the value of the
source constant.  The source guards the scaling and translation behind
     if (!empty(bbox))
which is modelled by the defined flag. -/
def transform_mesh_bounding_box (i : ModelInstance) (m : Mesh) (dont_translate : Bool) : BBox :=
  let bbox := meshBBox (meshTransform i.trafo.matrixRotationOnly m)
  if bbox.defined then
    let s := i.trafo.scaling
    let eps : ℚ := 1/10000
    let sx := if (s.x - 1 < -eps ∨ eps < s.x - 1) then s.x else 1
    let sy := if (s.y - 1 < -eps ∨ eps < s.y - 1) then s.y else 1
    let sz := if (s.z - 1 < -eps ∨ eps < s.z - 1) then s.z else 1
    let scaled : BBox :=
      ⟨⟨sx * bbox.bmin.x, sy * bbox.bmin.y, sz * bbox.bmin.z⟩,
       ⟨sx * bbox.bmax.x, sy * bbox.bmax.y, sz * bbox.bmax.z⟩, true⟩
    if dont_translate then scaled
    else ⟨scaled.bmin + i.trafo.offset, scaled.bmax + i.trafo.offset, true⟩
  else bbox

end ModelInstance

/-- ModelObject: ordered volumes and instances, the origin translation and
the lazily validated transformed bounding box (m_bounding_box plus the
m_bounding_box_valid dirty flag).  The bookkeeping fields that no claim
mentions (name, input file, config, layer height data, sla support points)
are omitted. -/
structure ModelObject where
  volumes : List ModelVolume
  instances : List ModelInstance
  originTranslation : Vec3
  mBoundingBox : BBox
  mBoundingBoxValid : Bool
deriving DecidableEq

namespace ModelObject

/-- ModelObject::invalidate_bounding_box. -/
def invalidate_bounding_box (o : ModelObject) : ModelObject :=
  { o with mBoundingBoxValid := false }

/-- The raw (instance-free) box computed inside ModelObject::bounding_box
(Model.cpp lines 756-769): merge, over the model-part volumes, the bounding
boxes of the volume-transformed meshes. -/
def rawVolumesBBox (o : ModelObject) : BBox :=
  o.volumes.foldl
    (fun bb v =>
      if v.is_model_part then bb.mergeBox (meshBBox (meshTransform v.trafo.matrix v.mesh))
      else bb)
    BBox.empty

/-- The from-scratch value of ModelObject::bounding_box (lines 754-777):
the raw box transformed by every instance and merged. -/
def computeBoundingBox (o : ModelObject) : BBox :=
  o.instances.foldl
    (fun bb i => bb.mergeBox (i.transform_bounding_box o.rawVolumesBBox))
    BBox.empty

/-- ModelObject::bounding_box(): return the cache when valid, otherwise
recompute, store and mark valid (memoization). -/
def bounding_box (o : ModelObject) : BBox × ModelObject :=
  if o.mBoundingBoxValid then (o.mBoundingBox, o)
  else
    let bb := o.computeBoundingBox
    (bb, { o with mBoundingBox := bb, mBoundingBoxValid := true })

/-- ModelObject::add_volume(mesh) (lines 640-646). -/
def add_volume (o : ModelObject) (m : Mesh) : ModelObject :=
  invalidate_bounding_box { o with volumes := o.volumes ++ [ModelVolume.ofMesh m] }

/-- ModelObject::delete_volume (lines 672-696): erase the volume; when
exactly one volume remains, recenter its geometry, fold its offset
(transformed by the translation-free instance matrix) into every instance
offset and zero the volume offset; finally invalidate the cache. -/
def delete_volume (o : ModelObject) (idx : ℕ) : ModelObject :=
  let vols := o.volumes.eraseIdx idx
  let o1 :=
    match vols with
    | [v] =>
      let v1 := v.center_geometry
      let volOffset := v1.trafo.offset
      let insts := o.instances.map fun i =>
        { i with trafo :=
            i.trafo.setOffset (i.trafo.offset + i.trafo.matrixNoOffset.apply volOffset) }
      { o with volumes := [{ v1 with trafo := v1.trafo.setOffset Vec3.zero }],
               instances := insts }
    | _ => { o with volumes := vols }
  invalidate_bounding_box o1

/-- ModelObject::clear_volumes (lines 698-704). -/
def clear_volumes (o : ModelObject) : ModelObject :=
  invalidate_bounding_box { o with volumes := [] }

/-- ModelObject::add_instance (lines 706-712); the variant taking a
placement corresponds to add_instance() followed by the setters. -/
def add_instance (o : ModelObject) (t : Trafo) : ModelObject :=
  invalidate_bounding_box { o with instances := o.instances ++ [⟨t, PVS.inside⟩] }

/-- ModelObject::delete_instance (lines 731-737). -/
def delete_instance (o : ModelObject) (idx : ℕ) : ModelObject :=
  invalidate_bounding_box { o with instances := o.instances.eraseIdx idx }

/-- ModelObject::clear_instances (lines 744-750). -/
def clear_instances (o : ModelObject) : ModelObject :=
  invalidate_bounding_box { o with instances := [] }

/-- ModelObject::translate (lines 900-909): shift every volume; the cached
bounding box, when valid, is translated in place and NOT invalidated. -/
def translate (o : ModelObject) (d : Vec3) : ModelObject :=
  { o with
    volumes := o.volumes.map (·.translate d)
    mBoundingBox := if o.mBoundingBoxValid then o.mBoundingBox.translate d else o.mBoundingBox }

/-- ModelObject::scale (lines 911-922). -/
def scale (o : ModelObject) (s : Vec3) : ModelObject :=
  invalidate_bounding_box { o with volumes := o.volumes.map (·.scale s) }

/-- ModelObject::center_around_origin (lines 855-878): the merged bounding
box of the raw meshes of the model-part volumes gives the shift; the object
is translated by it and the shift is accumulated on origin_translation. -/
def center_around_origin (o : ModelObject) : ModelObject :=
  let bb := o.volumes.foldl
    (fun bb v => if v.is_model_part then bb.mergeBox (meshBBox v.mesh) else bb)
    BBox.empty
  let shift := -bb.center
  let o1 := o.translate shift
  { o1 with originTranslation := o1.originTranslation + shift }

/-- ModelObject::rotate(angle, axis) (lines 924-937): rotate every volume,
recenter around the origin, invalidate the cache.  The axis is fixed to X
here and the Y/Z companions follow; the claims only need that each of them
invalidates. -/
def rotateX (o : ModelObject) (angle : ℚ) : ModelObject :=
  invalidate_bounding_box
    (center_around_origin { o with volumes := o.volumes.map (·.rotateX angle) })

def rotateY (o : ModelObject) (angle : ℚ) : ModelObject :=
  invalidate_bounding_box
    (center_around_origin { o with volumes := o.volumes.map (·.rotateY angle) })

def rotateZ (o : ModelObject) (angle : ℚ) : ModelObject :=
  invalidate_bounding_box
    (center_around_origin { o with volumes := o.volumes.map (·.rotateZ angle) })

/-- ModelObject::mirror (lines 954-965), specialised per axis like rotate. -/
def mirrorX (o : ModelObject) : ModelObject :=
  invalidate_bounding_box { o with volumes := o.volumes.map (·.mirrorX) }

def mirrorY (o : ModelObject) : ModelObject :=
  invalidate_bounding_box { o with volumes := o.volumes.map (·.mirrorY) }

def mirrorZ (o : ModelObject) : ModelObject :=
  invalidate_bounding_box { o with volumes := o.volumes.map (·.mirrorZ) }

/-- The iteration inside ModelObject::raw_bounding_box (lines 814-831): a
model-part volume with no instances present raises invalid_argument,
otherwise its volume-transformed mesh box, transformed by the first
instance without translation, is merged. -/
def rawBBoxGo (insts : List ModelInstance) : List ModelVolume → BBox → Except String BBox
  | [], bb => .ok bb
  | v :: rest, bb =>
    if v.is_model_part then
      match insts with
      | [] => .error "invalid argument: raw_bounding_box called with no instances"
      | i0 :: _ =>
        rawBBoxGo insts rest
          (bb.mergeBox (i0.transform_mesh_bounding_box (meshTransform v.trafo.matrix v.mesh) true))
    else rawBBoxGo insts rest bb

/-- ModelObject::raw_bounding_box (lines 814-831). -/
def raw_bounding_box (o : ModelObject) : Except String BBox :=
  rawBBoxGo o.instances o.volumes BBox.empty

/-- The merged value raw_bounding_box produces when it does not fail. -/
def rawBBoxPure (o : ModelObject) : BBox :=
  o.volumes.foldl
    (fun bb v =>
      if v.is_model_part then
        bb.mergeBox ((o.instances.getD 0 default).transform_mesh_bounding_box
          (meshTransform v.trafo.matrix v.mesh) true)
      else bb)
    BBox.empty

/-- The INSIDE/OUTSIDE bit pair one instance accumulates over the
model-part volumes in ModelObject::check_instances_print_volume_state
(lines 1239-1253): containment sets the inside bit, intersection both,
disjointness the outside bit. -/
def pvBits (vols : List ModelVolume) (printVolume : BBox) (i : ModelInstance) : Bool × Bool :=
  vols.foldl
    (fun (bits : Bool × Bool) v =>
      if v.is_model_part then
        let bb := meshTransformedBBox v.convexHull (i.trafo.matrix.comp v.trafo.matrix)
        if printVolume.containsBox bb then (true, bits.2)
        else if printVolume.intersectsBox bb then (true, true)
        else (bits.1, true)
      else bits)
    (false, false)

/-- The classification of a bit pair (lines 1254-1256). -/
def pvClassify (bits : Bool × Bool) : PVS :=
  if bits.1 ∧ bits.2 then PVS.partlyOutside
  else if bits.1 then PVS.inside
  else PVS.fullyOutside

/-- One instance of the loop of check_instances_print_volume_state: count
it when purely inside and record its classification. -/
def pvStep (vols : List ModelVolume) (printVolume : BBox)
    (acc : ℕ × List ModelInstance) (i : ModelInstance) : ℕ × List ModelInstance :=
  let bits := pvBits vols printVolume i
  (acc.1 + (if bits.1 ∧ ¬ bits.2 then 1 else 0),
   acc.2 ++ [{ i with printVolumeState := pvClassify bits }])

/-- ModelObject::check_instances_print_volume_state (lines 1231-1261): per
instance, the transformed convex-hull boxes of the model-part volumes set an
inside and an outside bit; only the pure-inside combination counts as
printable. -/
def check_instances_print_volume_state (o : ModelObject) (printVolume : BBox) :
    ℕ × ModelObject :=
  let r := o.instances.foldl (pvStep o.volumes printVolume) (0, [])
  (r.1, { o with instances := r.2 })

end ModelObject

/-- Index-aware map, used to embed the source loops of the form
for (size_t i = 0; i < instances.size(); i++). -/
def imap (f : ℕ → α → β) : List α → List β :=
  go 0
where
  go : ℕ → List α → List β
  | _, [] => []
  | n, a :: l => f n a :: go (n + 1) l

namespace ModelObject

/-- The modifier branch of the volume loop of ModelObject::cut (lines
1035-1042): the instance matrix is multiplied onto the volume matrix and the
product is stored back as a matrix-built transformation. -/
def cutModifierVolume (instM : Affine) (v : ModelVolume) : ModelVolume :=
  { v with trafo := Trafo.fromMatrix (instM.comp v.trafo.matrix) }

/-- The upper-mesh of a model-part volume in ModelObject::cut: the volume
mesh baked with the combined matrix, cut at zc, repaired. -/
def cutUpperMesh (instM : Affine) (zc : ℚ) (v : ModelVolume) : Mesh :=
  repairMesh (meshCut zc (meshTransform (instM.comp v.trafo.matrix) v.mesh)).1

/-- The lower-mesh companion of cutUpperMesh. -/
def cutLowerMesh (instM : Affine) (zc : ℚ) (v : ModelVolume) : Mesh :=
  repairMesh (meshCut zc (meshTransform (instM.comp v.trafo.matrix) v.mesh)).2

/-- The volume that the loop of ModelObject::cut adds to the upper object:
modifiers are carried over with the baked transformation, model parts only
when the repaired upper cut soup has facets (lines 1067-1072). -/
def cutUpperVolume (instM : Affine) (zc : ℚ) (v : ModelVolume) : Option ModelVolume :=
  if v.is_model_part then
    let um := cutUpperMesh instM zc v
    if 0 < facetsCount um then some (ModelVolume.ofMesh um) else none
  else some (cutModifierVolume instM v)

/-- The lower companion of cutUpperVolume (lines 1073-1086). -/
def cutLowerVolume (instM : Affine) (zc : ℚ) (v : ModelVolume) : Option ModelVolume :=
  if v.is_model_part then
    let lm := cutLowerMesh instM zc v
    if 0 < facetsCount lm then some (ModelVolume.ofMesh lm) else none
  else some (cutModifierVolume instM v)

/-- The mutation ModelObject::cut applies to the volumes of the object it
was called on: a modifier receives the baked transformation; a model part
receives the baked mesh and keeps only its offset (lines 1039, 1047,
1053-1056).  The stored convex hull is not touched by the source here. -/
def cutSelfVolume (instM : Affine) (v : ModelVolume) : ModelVolume :=
  if v.is_model_part then
    { v with mesh := meshTransform (instM.comp v.trafo.matrix) v.mesh,
             trafo := Trafo.idT.setOffset v.trafo.offset }
  else cutModifierVolume instM v

/-- The per-instance lower bounding box accumulated by ModelObject::cut
(lines 1079-1085): merged over the model-part volumes whose repaired lower
soup has facets, and only accumulated at all when the lower part is kept. -/
def cutLowerBBoxAt (o : ModelObject) (instM : Affine) (zc : ℚ) (keep_lower : Bool)
    (i : ModelInstance) : BBox :=
  o.volumes.foldl
    (fun bb v =>
      if v.is_model_part then
        let lm := cutLowerMesh instM zc v
        if keep_lower ∧ 0 < facetsCount lm then
          bb.mergeBox (i.transform_mesh_bounding_box lm true)
        else bb
      else bb)
    BBox.empty

/-- ModelObject::cut (lines 992-1130).  Returns the list of new objects and
the mutated original object.  The source clones the object (instances,
materials and bookkeeping included), clears the clone volumes, bakes the
selected instance rotation/scale/mirror (Z-rotation and translation
excluded) into every model-part mesh, splits it at the plane, carries the
modifiers over verbatim with the baked transformation, recenters each kept
clone and resets its instances to offset plus Z-rotation (the upper object
instances additionally displaced by minus half of the lower bounding-box
XY size). -/
def cut (o : ModelObject) (inst_idx : ℕ) (z : ℚ)
    (keep_upper keep_lower rotate_lower : Bool) : List ModelObject × ModelObject :=
  if keep_upper = false ∧ keep_lower = false then ([], o)
  else
    let inst := o.instances.getD inst_idx default
    let instM := assembleTransform Vec3.zero (inst.trafo.rotation.cwise ⟨1, 1, 0⟩)
      inst.trafo.scaling inst.trafo.mirror
    let zc := z - inst.trafo.offset.z
    let selfObj := { o with volumes := o.volumes.map (cutSelfVolume instM) }
    let uvols := o.volumes.filterMap (cutUpperVolume instM zc)
    let lvols := o.volumes.filterMap (cutLowerVolume instM zc)
    let upperRes :=
      if keep_upper = true ∧ 0 < uvols.length then
        let u1 := center_around_origin
          (invalidate_bounding_box { o with volumes := uvols, mBoundingBoxValid := false })
        [{ u1 with instances := imap (fun i ii =>
            let displace := Vec3.cwise
              (cutLowerBBoxAt o instM zc keep_lower (o.instances.getD i default)).size
              ⟨-(1/2), -(1/2), 0⟩
            { ii with trafo :=
                { Trafo.idT with offset := ii.trafo.offset + displace,
                                 rotation := ⟨0, 0, ii.trafo.rotation.z⟩ } }) u1.instances }]
      else []
    let lowerRes :=
      if keep_lower = true ∧ 0 < lvols.length then
        let l1 := center_around_origin
          (invalidate_bounding_box { o with volumes := lvols, mBoundingBoxValid := false })
        [{ l1 with instances := l1.instances.map (fun ii =>
            { ii with trafo :=
                { Trafo.idT with offset := ii.trafo.offset,
                                 rotation := ⟨if rotate_lower = true then deg2rad 180 else 0, 0,
                                              ii.trafo.rotation.z⟩ } }) }]
      else []
    (upperRes ++ lowerRes, selfObj)

end ModelObject

/-! ## Model::get_auto_extruder_id (Model.cpp lines 521-545)

The process-wide counter s_auto_extruder_id is an unsigned int, embedded as
a natural number with the one increment that can overflow reduced mod 2^32.
A step takes the limit and the counter and returns the produced id and the
new counter. -/

/-- One call of Model::get_auto_extruder_id with limit maxE on counter s:
a counter already above the limit is reset (and 1 is returned); otherwise
the counter is returned and incremented, wrapping the increment back to 1
when it passes the limit. -/
def autoExtruderStep (maxE s : ℕ) : ℕ × ℕ :=
  if maxE < s then (1, 1)
  else
    let s2 := (s + 1) % 2 ^ 32
    if maxE < s2 then (s, 1) else (s, s2)

/-- The counter after k calls with constant limit maxE, starting from the
reset state (Model::reset_auto_extruder_id sets the counter to 1). -/
def autoStateAfter (maxE : ℕ) : ℕ → ℕ
  | 0 => 1
  | k + 1 => (autoExtruderStep maxE (autoStateAfter maxE k)).2

/-- The id produced by call number k (0-indexed) of a constant-limit
sequence that starts from the reset state. -/
def autoResultAt (maxE k : ℕ) : ℕ :=
  (autoExtruderStep maxE (autoStateAfter maxE k)).1

/-! ## GLGizmoCut (GLGizmo.cpp lines 2462-2472) -/

/-- The cut-gizmo state: the stored plane height and the cached selection
height. -/
structure GLGizmoCut where
  mCutZ : ℚ
  mMaxZ : ℚ
deriving DecidableEq

namespace GLGizmoCut

/-- GLGizmoCut::set_cut_z: m_cut_z = std::max(0.0, std::min(m_max_z, cut_z)). -/
def set_cut_z (g : GLGizmoCut) (cutZ : ℚ) : GLGizmoCut :=
  { g with mCutZ := max 0 (min g.mMaxZ cutZ) }

/-- GLGizmoCut::update_max_z: m_max_z is set to the Z extent of the
selection bounding box and the stored plane is re-clamped. -/
def update_max_z (g : GLGizmoCut) (selectionBBox : BBox) : GLGizmoCut :=
  set_cut_z { g with mMaxZ := selectionBBox.size.z } g.mCutZ

end GLGizmoCut

/-! ## The apply() reconciliation predicates (Model.cpp lines 1633-1653)

Only the object identity lists matter to the two predicates; objects are
embedded by their ids. -/

/-- A model object reduced to its identity, as read by
model_object_list_equal / model_object_list_extended. -/
structure IdObj where
  oid : ℕ
deriving DecidableEq

/-- A model reduced to its ordered object identity list. -/
structure IdModel where
  objects : List IdObj
deriving DecidableEq

/-- model_object_list_equal (lines 1633-1641): same object count and
position-wise agreeing ids. -/
def model_object_list_equal (model_old model_new : IdModel) : Bool :=
  model_old.objects.length == model_new.objects.length &&
  (model_old.objects.zip model_new.objects).all fun p => p.1.oid == p.2.oid

/-- model_object_list_extended (lines 1645-1653): strictly more objects in
the new model and position-wise agreeing ids on the length of the old
list. -/
def model_object_list_extended (model_old model_new : IdModel) : Bool :=
  decide (model_old.objects.length < model_new.objects.length) &&
  (model_old.objects.zip model_new.objects).all fun p => p.1.oid == p.2.oid

/-! ## The identity registry

ModelBase::s_last_id lives at Model.cpp line 24; the allocation itself
(ModelBase::generate_new_id, in the Model.hpp header that is not among the
given sources) is modelled from the spec: a process-wide monotonically
increasing counter hands every newly constructed entity the next id, so ids
are strictly positive.  Model::assign_copy (lines 26-47) copies the model id
(copy_id) and clones objects and materials including their ids, as its
source comments state.  Entities are embedded by their ids alone. -/

structure EVol where
  vid : ℕ
deriving DecidableEq

structure EInst where
  iid : ℕ
deriving DecidableEq

structure EMat where
  matid : ℕ
deriving DecidableEq

structure EObj where
  oid : ℕ
  vols : List EVol
  insts : List EInst
deriving DecidableEq

structure EModel where
  mid : ℕ
  objs : List EObj
  mats : List (ℕ × EMat)
deriving DecidableEq

/-- The ids of an object and of its children. -/
def objIds (o : EObj) : List ℕ :=
  o.oid :: (o.vols.map (·.vid) ++ o.insts.map (·.iid))

/-- The ids of a model and of all its descendants (the scope walked by
check_model_ids_validity, Model.cpp lines 1698-1715, extended by the model
id itself). -/
def modelIds (m : EModel) : List ℕ :=
  m.mid :: (m.objs.flatMap objIds ++ m.mats.map (fun p => p.2.matid))

/-- The process state: the live models and the allocation counter. -/
structure PState where
  models : List EModel
  counter : ℕ
deriving DecidableEq

/-- All live entity ids of the process. -/
def liveIds (s : PState) : List ℕ := s.models.flatMap modelIds

/-- The add/delete/copy operations of the claim; entities are addressed by
container position. -/
inductive POp where
  | newModel
  | addObject (m : ℕ)
  | addVolume (m o : ℕ)
  | addInstance (m o : ℕ)
  | addMaterial (m key : ℕ)
  | deleteObject (m o : ℕ)
  | deleteVolume (m o v : ℕ)
  | deleteInstance (m o i : ℕ)
  | assignCopy (dst src : ℕ)
deriving DecidableEq

namespace PState

/-- One mutation.  A fresh id is counter + 1 (so ids stay positive and the
counter increases); out-of-range positions leave the state unchanged.
Model::add_material (lines 255-262) allocates only when the key is new.
ModelObject::delete_volume assigns the last remaining volume a brand new
id (set_new_unique_id, line 692).  Model::assign_copy replaces the target
model by an id-preserving clone of the source, the model id included. -/
def step (s : PState) : POp → PState
  | .newModel => ⟨s.models ++ [⟨s.counter + 1, [], []⟩], s.counter + 1⟩
  | .addObject mi =>
    match s.models[mi]? with
    | none => s
    | some m =>
      ⟨s.models.set mi { m with objs := m.objs ++ [⟨s.counter + 1, [], []⟩] }, s.counter + 1⟩
  | .addVolume mi oi =>
    match s.models[mi]? with
    | none => s
    | some m =>
      match m.objs[oi]? with
      | none => s
      | some ob =>
        ⟨s.models.set mi
          { m with objs := m.objs.set oi { ob with vols := ob.vols ++ [⟨s.counter + 1⟩] } },
         s.counter + 1⟩
  | .addInstance mi oi =>
    match s.models[mi]? with
    | none => s
    | some m =>
      match m.objs[oi]? with
      | none => s
      | some ob =>
        ⟨s.models.set mi
          { m with objs := m.objs.set oi { ob with insts := ob.insts ++ [⟨s.counter + 1⟩] } },
         s.counter + 1⟩
  | .addMaterial mi key =>
    match s.models[mi]? with
    | none => s
    | some m =>
      if m.mats.any (fun p => p.1 == key) then s
      else ⟨s.models.set mi { m with mats := m.mats ++ [(key, ⟨s.counter + 1⟩)] }, s.counter + 1⟩
  | .deleteObject mi oi =>
    match s.models[mi]? with
    | none => s
    | some m => ⟨s.models.set mi { m with objs := m.objs.eraseIdx oi }, s.counter⟩
  | .deleteVolume mi oi vi =>
    match s.models[mi]? with
    | none => s
    | some m =>
      match m.objs[oi]? with
      | none => s
      | some ob =>
        match ob.vols.eraseIdx vi with
        | [_] =>
          ⟨s.models.set mi
            { m with objs := m.objs.set oi { ob with vols := [⟨s.counter + 1⟩] } },
           s.counter + 1⟩
        | vols' =>
          ⟨s.models.set mi { m with objs := m.objs.set oi { ob with vols := vols' } }, s.counter⟩
  | .deleteInstance mi oi ii =>
    match s.models[mi]? with
    | none => s
    | some m =>
      match m.objs[oi]? with
      | none => s
      | some ob =>
        ⟨s.models.set mi
          { m with objs := m.objs.set oi { ob with insts := ob.insts.eraseIdx ii } },
         s.counter⟩
  | .assignCopy dst src =>
    match s.models[dst]?, s.models[src]? with
    | some _, some msrc => ⟨s.models.set dst msrc, s.counter⟩
    | _, _ => s

/-- The empty process (no models: s_last_id starts at 0). -/
def init : PState := ⟨[], 0⟩

/-- Run an operation sequence from a state. -/
def run (s : PState) : List POp → PState
  | [] => s
  | op :: ops => run (s.step op) ops

end PState

/-- Whether an operation list avoids the clone-with-identity copy. -/
def noAssignCopy (ops : List POp) : Prop :=
  ∀ op ∈ ops, ∀ dst src, op ≠ POp.assignCopy dst src

/-! ## The SLA support tree (SLASupportTree.hpp lines 31-167)

Only the interface of the support engine is among the given sources; the
construction itself (SLASupportTree.cpp) is modelled from the spec: each
anchor point spawns a head/pillar/base primitive whose triangles make up the
support mesh, a point that misses the mesh surface is rejected before tree
construction, and slicing decomposes the finished mesh into per-height 2D
cross-sections. -/

/-- sla::SupportConfig with the defaults of SLASupportTree.hpp (the tilt
angle, PI/4 in the source, is carried in degrees like every angle here). -/
structure SupportConfig where
  head_front_radius_mm : ℚ := 2/10
  head_penetration_mm : ℚ := 5/10
  head_back_radius_mm : ℚ := 5/10
  head_width_mm : ℚ := 1
  headless_pillar_radius_mm : ℚ := 4/10
  pillar_widening_factor : ℚ := 5/10
  base_radius_mm : ℚ := 2
  base_height_mm : ℚ := 1
  tilt : ℚ := 45
  max_bridge_length_mm : ℚ := 15
  object_elevation_mm : ℚ := 10
deriving DecidableEq

/-- Modelled from the spec: the support primitive (head, pillar and flared
base) spawned by one anchor point — a small tetrahedron-shaped soup around
the point whose extent is the head back radius; every anchor contributes a
non-empty soup. -/
def supportPrimitive (cfg : SupportConfig) (p : Vec3) : Mesh :=
  let r := cfg.head_back_radius_mm
  let apex : Vec3 := ⟨p.x, p.y, p.z + r⟩
  let b0 : Vec3 := ⟨p.x - r, p.y - r, p.z - cfg.head_penetration_mm⟩
  let b1 : Vec3 := ⟨p.x + r, p.y - r, p.z - cfg.head_penetration_mm⟩
  let b2 : Vec3 := ⟨p.x, p.y + r, p.z - cfg.head_penetration_mm⟩
  [⟨b0, b1, b2⟩, ⟨apex, b0, b1⟩, ⟨apex, b1, b2⟩, ⟨apex, b2, b0⟩]

/-- Modelled from the spec: the surface-tolerance test of the anchor
points; a point outside it fails the mesh-intersection lookup.  The claims
only exercise the empty point set, for which the test is vacuous; the
membership of the mesh bounding box stands in for the surface lookup. -/
def onSurface (em : Mesh) (p : Vec3) : Bool :=
  (meshBBox em).containsPt p

/-- The generated support tree: its merged mesh (without the pad). -/
structure SLASupportTree where
  supportMesh : Mesh
deriving DecidableEq

/-- Modelled from the spec: SLASupportTree::generate — reject any anchor
point outside the surface tolerance, otherwise build the union of the
per-point primitives.  An empty point set builds the empty union without
error. -/
def SLASupportTree.generate (pts : List Vec3) (em : Mesh) (cfg : SupportConfig) :
    Except String SLASupportTree :=
  if pts.all (onSurface em) then
    .ok ⟨pts.flatMap (supportPrimitive cfg)⟩
  else .error "support point outside mesh surface tolerance"

/-- Modelled from the spec: the 2D cross-section of a soup at one height,
as the list of the segments in which the plane meets a facet (the polygon
stitching of the slicer is not modelled; a soup with no facet crossing the
plane yields the empty section). -/
def crossSection (m : Mesh) (h : ℚ) : List (Vec3 × Vec3) :=
  m.flatMap fun t =>
    if t.a.z < h ∧ h < t.b.z then [(interpZ h t.a t.b, interpZ h t.a t.c)] else
    if t.b.z < h ∧ h < t.a.z then [(interpZ h t.b t.a, interpZ h t.b t.c)] else []

/-- The slicing height levels: first_layer_height (or layer_height when the
caller passes the negative default), then steps of layer_height up to the
top of the mesh (SLASupportTree::slice takes layerh and init_layerh =
-1). -/
def sliceLevels (m : Mesh) (layerh init_layerh : ℚ) : List ℚ :=
  let bb := meshBBox m
  if bb.defined ∧ 0 < layerh then
    let first := if init_layerh < 0 then layerh else init_layerh
    let span := bb.bmax.z - (bb.bmin.z + first)
    let n := if span < 0 then 0 else (span / layerh).ceil.toNat
    (List.range (n + 1)).map fun i => bb.bmin.z + first + layerh * i
  else []

/-- Modelled from the spec: SLASupportTree::slice — the per-level
cross-sections of the merged support mesh. -/
def SLASupportTree.slice (t : SLASupportTree) (layerh init_layerh : ℚ) :
    List (List (Vec3 × Vec3)) :=
  (sliceLevels t.supportMesh layerh init_layerh).map (crossSection t.supportMesh)

/-! ## The mutation alphabet of the bounding-box cache contract -/

/-- The mutating ModelObject operations the cache contract quantifies over
(the per-axis variants spell out the Axis argument of the source). -/
inductive MOp where
  | addVolume (m : Mesh)
  | deleteVolume (idx : ℕ)
  | clearVolumes
  | addInstance (t : Trafo)
  | deleteInstance (idx : ℕ)
  | clearInstances
  | translate (d : Vec3)
  | scale (s : Vec3)
  | rotateX (a : ℚ)
  | rotateY (a : ℚ)
  | rotateZ (a : ℚ)
  | mirrorX
  | mirrorY
  | mirrorZ
deriving DecidableEq

/-- Dispatch an operation to its source embedding. -/
def MOp.apply : MOp → ModelObject → ModelObject
  | .addVolume m, o => o.add_volume m
  | .deleteVolume i, o => o.delete_volume i
  | .clearVolumes, o => o.clear_volumes
  | .addInstance t, o => o.add_instance t
  | .deleteInstance i, o => o.delete_instance i
  | .clearInstances, o => o.clear_instances
  | .translate d, o => o.translate d
  | .scale s, o => o.scale s
  | .rotateX a, o => o.rotateX a
  | .rotateY a, o => o.rotateY a
  | .rotateZ a, o => o.rotateZ a
  | .mirrorX, o => o.mirrorX
  | .mirrorY, o => o.mirrorY
  | .mirrorZ, o => o.mirrorZ

/-- Whether the operation is the translate (the one that patches the cache
in place instead of invalidating it). -/
def MOp.isTranslate : MOp → Bool
  | .translate _ => true
  | _ => false

/-- The concrete zero-instance modifier-only object of the C5
counterexample and witness. -/
def c5ModifierObject : ModelObject :=
  ⟨[⟨[⟨⟨0,0,0⟩,⟨1,0,0⟩,⟨0,1,0⟩⟩], [⟨⟨0,0,0⟩,⟨1,0,0⟩,⟨0,1,0⟩⟩],
     Trafo.idT, VolumeType.parameterModifier⟩],
   [], Vec3.zero, BBox.empty, false⟩

/-- The concrete object of the C2 counterexample: one model-part triangle
volume and one instance mirrored along X. -/
def c2MirrorObject : ModelObject :=
  ⟨[⟨[⟨⟨0,0,0⟩,⟨1,0,0⟩,⟨0,1,0⟩⟩], [⟨⟨0,0,0⟩,⟨1,0,0⟩,⟨0,1,0⟩⟩],
     Trafo.idT, VolumeType.modelPart⟩],
   [⟨{ Trafo.idT with mirror := ⟨-1, 1, 1⟩ }, PVS.inside⟩],
   Vec3.zero, BBox.empty, false⟩

/-- The world-space placement of the mesh of one volume under one instance:
the composed instance and volume matrix applied to the mesh, the composition
the source uses wherever a volume is rendered or measured under an instance
(e.g. Model.cpp lines 1208, 1243). -/
def volumeWorldMesh (i : ModelInstance) (v : ModelVolume) : Mesh :=
  meshTransform (i.trafo.matrix.comp v.trafo.matrix) v.mesh

/-- The concrete two-volume object of the C6 counterexample: the remaining
volume carries a non-identity scaling (2,1,1) and an off-center mesh, the
instance is the identity placement. -/
def c6Object : ModelObject :=
  ⟨[⟨[⟨⟨0,0,0⟩,⟨2,0,0⟩,⟨0,2,0⟩⟩], [⟨⟨0,0,0⟩,⟨2,0,0⟩,⟨0,2,0⟩⟩],
     { Trafo.idT with scaling := ⟨2,1,1⟩ }, VolumeType.modelPart⟩,
    ⟨[⟨⟨5,5,5⟩,⟨6,5,5⟩,⟨5,6,5⟩⟩], [⟨⟨5,5,5⟩,⟨6,5,5⟩,⟨5,6,5⟩⟩],
     Trafo.idT, VolumeType.modelPart⟩],
   [⟨Trafo.idT, PVS.inside⟩],
   Vec3.zero, BBox.empty, false⟩

instance : Inhabited ModelObject := ⟨⟨[], [], Vec3.zero, BBox.empty, false⟩⟩

/-- The instance matrix assembled at the top of ModelObject::cut (lines
1019-1025): rotation with the Z component zeroed, scaling and mirror, no
offset. -/
def ModelObject.cutInstanceMatrix (o : ModelObject) (inst_idx : ℕ) : Affine :=
  let inst := o.instances.getD inst_idx default
  assembleTransform Vec3.zero (inst.trafo.rotation.cwise ⟨1, 1, 0⟩)
    inst.trafo.scaling inst.trafo.mirror

/-- The plane height in the selected instance's local frame (line 1027:
z -= instances[instance]->get_offset()(2)). -/
def ModelObject.cutZLocal (o : ModelObject) (inst_idx : ℕ) (z : ℚ) : ℚ :=
  z - (o.instances.getD inst_idx default).trafo.offset.z

/-- The upper object ModelObject::cut pushes when it is kept and non-empty
(lines 1092-1110): the surviving upper volumes, recentered, with every
instance reset to its offset plus the displacement by minus half of the
per-instance lower bounding-box XY size, and to its Z-rotation alone. -/
def ModelObject.cutUpperObject (o : ModelObject) (inst_idx : ℕ) (z : ℚ)
    (keep_lower : Bool) : ModelObject :=
  let instM := o.cutInstanceMatrix inst_idx
  let zc := o.cutZLocal inst_idx z
  let u1 := ModelObject.center_around_origin
    (ModelObject.invalidate_bounding_box
      { o with volumes := o.volumes.filterMap (ModelObject.cutUpperVolume instM zc),
               mBoundingBoxValid := false })
  { u1 with instances := imap (fun i ii =>
      let displace := Vec3.cwise
        (ModelObject.cutLowerBBoxAt o instM zc keep_lower (o.instances.getD i default)).size
        ⟨-(1/2), -(1/2), 0⟩
      { ii with trafo :=
          { Trafo.idT with offset := ii.trafo.offset + displace,
                           rotation := ⟨0, 0, ii.trafo.rotation.z⟩ } }) u1.instances }

/-- The lower object ModelObject::cut pushes when it is kept and non-empty
(lines 1111-1127): the surviving lower volumes, recentered, with every
instance reset to its offset and Z-rotation (plus the 180-degree X flip when
rotate_lower is set). -/
def ModelObject.cutLowerObject (o : ModelObject) (inst_idx : ℕ) (z : ℚ)
    (rotate_lower : Bool) : ModelObject :=
  let instM := o.cutInstanceMatrix inst_idx
  let zc := o.cutZLocal inst_idx z
  let l1 := ModelObject.center_around_origin
    (ModelObject.invalidate_bounding_box
      { o with volumes := o.volumes.filterMap (ModelObject.cutLowerVolume instM zc),
               mBoundingBoxValid := false })
  { l1 with instances := l1.instances.map (fun ii =>
      { ii with trafo :=
          { Trafo.idT with offset := ii.trafo.offset,
                           rotation := ⟨if rotate_lower = true then deg2rad 180 else 0, 0,
                                        ii.trafo.rotation.z⟩ } }) }

/-- The concrete modifier-only object of the C1 counterexample: one
parameter-modifier volume, one identity instance. -/
def c1ModifierObject : ModelObject :=
  ⟨[⟨[⟨⟨0,0,0⟩,⟨1,0,0⟩,⟨0,1,0⟩⟩], [⟨⟨0,0,0⟩,⟨1,0,0⟩,⟨0,1,0⟩⟩],
     Trafo.idT, VolumeType.parameterModifier⟩],
   [⟨Trafo.idT, PVS.inside⟩], Vec3.zero, BBox.empty, false⟩

/-- The axis-aligned unit cube x, y in [-1/2, 1/2], z in [0, 1] as a
12-facet triangle soup. -/
def c1CubeMesh : Mesh :=
  [⟨⟨-(1/2),-(1/2),0⟩, ⟨1/2,1/2,0⟩, ⟨1/2,-(1/2),0⟩⟩,
   ⟨⟨-(1/2),-(1/2),0⟩, ⟨-(1/2),1/2,0⟩, ⟨1/2,1/2,0⟩⟩,
   ⟨⟨-(1/2),-(1/2),1⟩, ⟨1/2,-(1/2),1⟩, ⟨1/2,1/2,1⟩⟩,
   ⟨⟨-(1/2),-(1/2),1⟩, ⟨1/2,1/2,1⟩, ⟨-(1/2),1/2,1⟩⟩,
   ⟨⟨-(1/2),-(1/2),0⟩, ⟨1/2,-(1/2),0⟩, ⟨1/2,-(1/2),1⟩⟩,
   ⟨⟨-(1/2),-(1/2),0⟩, ⟨1/2,-(1/2),1⟩, ⟨-(1/2),-(1/2),1⟩⟩,
   ⟨⟨1/2,-(1/2),0⟩, ⟨1/2,1/2,0⟩, ⟨1/2,1/2,1⟩⟩,
   ⟨⟨1/2,-(1/2),0⟩, ⟨1/2,1/2,1⟩, ⟨1/2,-(1/2),1⟩⟩,
   ⟨⟨1/2,1/2,0⟩, ⟨-(1/2),1/2,0⟩, ⟨-(1/2),1/2,1⟩⟩,
   ⟨⟨1/2,1/2,0⟩, ⟨-(1/2),1/2,1⟩, ⟨1/2,1/2,1⟩⟩,
   ⟨⟨-(1/2),1/2,0⟩, ⟨-(1/2),-(1/2),0⟩, ⟨-(1/2),-(1/2),1⟩⟩,
   ⟨⟨-(1/2),1/2,0⟩, ⟨-(1/2),-(1/2),1⟩, ⟨-(1/2),1/2,1⟩⟩]

/-- The concrete cube object of the C1 examples: one model-part unit-cube
volume of height 1, one identity instance. -/
def c1CubeObject : ModelObject :=
  ⟨[⟨c1CubeMesh, c1CubeMesh, Trafo.idT, VolumeType.modelPart⟩],
   [⟨Trafo.idT, PVS.inside⟩], Vec3.zero, BBox.empty, false⟩

/-! # Theorems -/

/-! ## C8: the cut-plane clamp -/

/-- C8.  The cut gizmo stores a silently clamped plane height: for every
input z, set_cut_z stores min(max(z, 0), m_max_z), which lies in the range
[0, m_max_z] whenever the cached selection height m_max_z is non-negative
(it is the Z extent of a selection bounding box); update_max_z refreshes
m_max_z from the selection box and re-clamps the stored value. -/
theorem C8_cut_plane_clamped (g : GLGizmoCut) (z : ℚ) (hM : 0 ≤ g.mMaxZ) :
    (g.set_cut_z z).mCutZ = min (max z 0) g.mMaxZ ∧
    0 ≤ (g.set_cut_z z).mCutZ ∧ (g.set_cut_z z).mCutZ ≤ g.mMaxZ ∧
    (∀ bb : BBox, (g.update_max_z bb).mMaxZ = bb.size.z ∧
      (g.update_max_z bb).mCutZ = max 0 (min bb.size.z g.mCutZ)) := by
  have key : max 0 (min g.mMaxZ z) = min (max z 0) g.mMaxZ := by
    rcases le_total z 0 with h | h <;> rcases le_total z g.mMaxZ with h2 | h2 <;>
      simp [min_def, max_def] <;> split_ifs <;> linarith
  refine ⟨key, ?_, ?_, fun bb => ⟨rfl, rfl⟩⟩
  · simp only [GLGizmoCut.set_cut_z]
    exact le_max_left 0 (min g.mMaxZ z)
  · simp only [GLGizmoCut.set_cut_z]
    exact max_le hM (min_le_left _ _)

/-- Witness for C8 at a concrete gizmo state: a plane request far above a
selection of height 10 is stored as 10. -/
theorem C8_cut_plane_clamped_witness :
    ((GLGizmoCut.mk 3 10).set_cut_z 42).mCutZ = 10 := by
  have h := C8_cut_plane_clamped (GLGizmoCut.mk 3 10) 42 (by norm_num)
  rw [h.1]; norm_num

/-! ## C9: the auto-extruder counter -/

/-- The successor modulo m, split on the wrap. -/
theorem succ_mod_eq (m k : ℕ) (hm : 1 ≤ m) :
    (k + 1) % m = if k % m + 1 = m then 0 else k % m + 1 := by
  have hdm : m * (k / m) + k % m = k := Nat.div_add_mod k m
  have hlt : k % m < m := Nat.mod_lt _ hm
  split_ifs with h
  · have h1 : k + 1 = m * (k / m) + m := by omega
    rw [h1, ← Nat.mul_succ, Nat.mul_mod_right]
  · have h1 : k + 1 = m * (k / m) + (k % m + 1) := by omega
    rw [h1, Nat.mul_add_mod, Nat.mod_eq_of_lt (by omega)]

/-- C9 (amended).  The auto-extruder allocation, for every limit between 1
and 2^32 - 2: one call from any counter at least 1 returns an id in
[1, limit] and leaves the counter at least 1 again; a counter left above the
limit produces 1 and resets the counter; and after a reset the calls of a
constant-limit sequence cycle through 1, 2, ..., limit, 1, 2, ...
(call number k, counted from 0, returns k mod limit + 1).  The bound
2^32 - 2 is what the 32-bit counter forces: see the counterexample. -/
theorem C9_auto_extruder_amended :
    (∀ maxE s : ℕ, 1 ≤ maxE → 1 ≤ s →
      1 ≤ (autoExtruderStep maxE s).1 ∧ (autoExtruderStep maxE s).1 ≤ maxE ∧
      (maxE ≤ 2 ^ 32 - 2 → 1 ≤ (autoExtruderStep maxE s).2)) ∧
    (∀ maxE s : ℕ, maxE < s → autoExtruderStep maxE s = (1, 1)) ∧
    (∀ maxE : ℕ, 1 ≤ maxE → maxE ≤ 2 ^ 32 - 2 →
      ∀ k, autoStateAfter maxE k = k % maxE + 1 ∧ autoResultAt maxE k = k % maxE + 1) := by
  refine ⟨?_, ?_, ?_⟩
  · intro maxE s hm hs
    by_cases h : maxE < s
    · simp only [autoExtruderStep, if_pos h]
      exact ⟨le_refl 1, hm, fun _ => le_refl 1⟩
    · push_neg at h
      have hs2 : (s + 1) % 2 ^ 32 = s + 1 ∨ maxE < (s + 1) % 2 ^ 32 ∨ maxE ≤ 2 ^ 32 - 2 → True := fun _ => trivial
      simp only [autoExtruderStep, if_neg (not_lt.mpr h)]
      refine ⟨?_, ?_, ?_⟩
      · split_ifs <;> simpa using hs
      · split_ifs <;> simpa using h
      · intro hbound
        have hwrap : (s + 1) % 2 ^ 32 = s + 1 := Nat.mod_eq_of_lt (by omega)
        rw [hwrap]
        split_ifs <;> omega
  · intro maxE s h
    simp only [autoExtruderStep, if_pos h]
  · intro maxE hm hbound k
    induction k with
    | zero =>
      constructor
      · simp [autoStateAfter, Nat.mod_eq_of_lt]
      · have hst : autoStateAfter maxE 0 = 1 := rfl
        have h1 : 1 ≤ maxE := hm
        simp only [autoResultAt, hst, autoExtruderStep]
        rw [if_neg (by omega)]
        have hw : (1 + 1) % 2 ^ 32 = 2 := by norm_num
        simp only [hw]
        split_ifs <;> simp
    | succ k ih =>
      have hstate : autoStateAfter maxE (k + 1) = (k + 1) % maxE + 1 := by
        have hs := ih.1
        have hmod : k % maxE < maxE := Nat.mod_lt _ hm
        simp only [autoStateAfter, hs, autoExtruderStep]
        rw [if_neg (by omega)]
        have hwrap : (k % maxE + 1 + 1) % 2 ^ 32 = k % maxE + 1 + 1 :=
          Nat.mod_eq_of_lt (by omega)
        simp only [hwrap]
        rw [succ_mod_eq maxE k hm]
        split_ifs with h1 h2
        · omega
        · omega
        · omega
        · omega
      refine ⟨hstate, ?_⟩
      have hmod : (k + 1) % maxE < maxE := Nat.mod_lt _ hm
      simp only [autoResultAt, hstate, autoExtruderStep]
      rw [if_neg (by omega)]
      have hwrap : ((k + 1) % maxE + 1 + 1) % 2 ^ 32 = (k + 1) % maxE + 1 + 1 :=
        Nat.mod_eq_of_lt (by omega)
      simp only [hwrap]
      split_ifs <;> simp

/-- Witness for C9 at concrete inputs: with limit 3 the calls after a reset
return 1, 2, 3, 1 and a counter of 7 left above the limit yields (1, 1). -/
theorem C9_auto_extruder_amended_witness :
    autoResultAt 3 0 = 1 ∧ autoResultAt 3 1 = 2 ∧ autoResultAt 3 2 = 3 ∧
    autoResultAt 3 3 = 1 ∧ autoExtruderStep 3 7 = (1, 1) := by
  have h := C9_auto_extruder_amended
  have c := h.2.2 3 (by norm_num) (by norm_num)
  exact ⟨(c 0).2, (c 1).2, (c 2).2, (c 3).2, h.2.1 3 7 (by norm_num)⟩

/-- The counter after k constant-limit calls at the largest representable
limit: no reset ever fires and the 32-bit counter just wraps. -/
theorem autoStateAfter_maxlimit (k : ℕ) :
    autoStateAfter (2 ^ 32 - 1) k = (k + 1) % 2 ^ 32 := by
  induction k with
  | zero => simp [autoStateAfter]
  | succ k ih =>
    have hlt : (k + 1) % 2 ^ 32 < 2 ^ 32 := Nat.mod_lt _ (by norm_num)
    simp only [autoStateAfter, ih, autoExtruderStep]
    rw [if_neg (by omega)]
    have h2 : ((k + 1) % 2 ^ 32 + 1) % 2 ^ 32 = (k + 1 + 1) % 2 ^ 32 := by
      conv_rhs => rw [Nat.add_mod (k + 1) 1]
      norm_num
    rw [h2]
    have hlt2 : (k + 2) % 2 ^ 32 < 2 ^ 32 := Nat.mod_lt _ (by norm_num)
    rw [if_neg (by omega)]

/-- The id produced by one call when the counter is not above the limit. -/
theorem autoExtruderStep_fst (maxE s : ℕ) (h : ¬ maxE < s) :
    (autoExtruderStep maxE s).1 = s := by
  simp only [autoExtruderStep, if_neg h]
  split_ifs <;> rfl

/-- The unfolding equation of autoResultAt, stated at generic arguments so
that it can be instantiated at large literals without kernel evaluation. -/
theorem autoResultAt_def (maxE k : ℕ) :
    autoResultAt maxE k = (autoExtruderStep maxE (autoStateAfter maxE k)).1 := rfl

/-- Counterexample to C9 as stated.  The claim promises a return value in
[1, max_extruders] for every max_extruders at least 1 and every call
sequence; at max_extruders = 2^32 - 1 (an unsigned int limit the claim
quantifies over) the call number 2^32 - 1 of the constant-limit sequence
started after a reset returns 0, because the 32-bit counter increments past
the limit check and wraps to 0 instead of resetting to 1. -/
theorem C9_counterexample :
    1 ≤ 2 ^ 32 - 1 ∧ autoResultAt (2 ^ 32 - 1) (2 ^ 32 - 1) = 0 ∧
    ¬ 1 ≤ autoResultAt (2 ^ 32 - 1) (2 ^ 32 - 1) := by
  have h1 := autoResultAt_def (2 ^ 32 - 1) (2 ^ 32 - 1)
  have h2 : autoStateAfter (2 ^ 32 - 1) (2 ^ 32 - 1) = 0 := by
    rw [autoStateAfter_maxlimit]
    have h3 : 2 ^ 32 - 1 + 1 = 2 ^ 32 := by norm_num
    rw [h3, Nat.mod_self]
  rw [h2] at h1
  have h4 : (autoExtruderStep (2 ^ 32 - 1) 0).1 = 0 :=
    autoExtruderStep_fst _ _ (by norm_num)
  have h5 : autoResultAt (2 ^ 32 - 1) (2 ^ 32 - 1) = 0 := h1.trans h4
  exact ⟨by norm_num, h5, by rw [h5]; norm_num⟩

/-! ## C4: the reconciliation fast-path predicates -/

/-- The position-wise id agreement read off the zipped traversal of the two
object lists. -/
theorem zip_all_oid_iff (xs ys : List IdObj) :
    ((xs.zip ys).all fun p => p.1.oid == p.2.oid) = true ↔
    (∀ i, i < xs.length → i < ys.length →
      (xs.getD i ⟨0⟩).oid = (ys.getD i ⟨0⟩).oid) := by
  induction xs generalizing ys with
  | nil => simp
  | cons x xs ih =>
    cases ys with
    | nil => simp
    | cons y ys =>
      simp only [List.zip_cons_cons, List.all_cons, Bool.and_eq_true, beq_iff_eq, ih]
      constructor
      · rintro ⟨h0, hrest⟩ i hi1 hi2
        cases i with
        | zero => simpa using h0
        | succ i => simpa using hrest i (by simpa using hi1) (by simpa using hi2)
      · intro h
        refine ⟨by simpa using h 0 (by simp) (by simp), fun i hi1 hi2 => ?_⟩
        simpa using h (i + 1) (by simpa using hi1) (by simpa using hi2)

/-- C4.  The two apply() fast-path predicates: model_object_list_equal holds
iff both models have the same object count and position-wise equal object
ids; model_object_list_extended holds iff the new list is strictly longer
and the old ids agree position-wise on the old length (a position-wise
prefix); the two predicates are never both true. -/
theorem C4_fast_path_predicates (mo mn : IdModel) :
    (model_object_list_equal mo mn = true ↔
      (mo.objects.length = mn.objects.length ∧
       ∀ i, i < mo.objects.length →
         (mo.objects.getD i ⟨0⟩).oid = (mn.objects.getD i ⟨0⟩).oid)) ∧
    (model_object_list_extended mo mn = true ↔
      (mo.objects.length < mn.objects.length ∧
       ∀ i, i < mo.objects.length →
         (mo.objects.getD i ⟨0⟩).oid = (mn.objects.getD i ⟨0⟩).oid)) ∧
    ¬ (model_object_list_equal mo mn = true ∧ model_object_list_extended mo mn = true) := by
  have heq : model_object_list_equal mo mn = true ↔
      (mo.objects.length = mn.objects.length ∧
       ∀ i, i < mo.objects.length →
         (mo.objects.getD i ⟨0⟩).oid = (mn.objects.getD i ⟨0⟩).oid) := by
    simp only [model_object_list_equal, Bool.and_eq_true, beq_iff_eq, zip_all_oid_iff]
    constructor
    · rintro ⟨hl, h⟩
      exact ⟨hl, fun i hi => h i hi (hl ▸ hi)⟩
    · rintro ⟨hl, h⟩
      exact ⟨hl, fun i hi1 _ => h i hi1⟩
  have hext : model_object_list_extended mo mn = true ↔
      (mo.objects.length < mn.objects.length ∧
       ∀ i, i < mo.objects.length →
         (mo.objects.getD i ⟨0⟩).oid = (mn.objects.getD i ⟨0⟩).oid) := by
    simp only [model_object_list_extended, Bool.and_eq_true, decide_eq_true_eq,
      zip_all_oid_iff]
    constructor
    · rintro ⟨hl, h⟩
      exact ⟨hl, fun i hi => h i hi (hi.trans hl)⟩
    · rintro ⟨hl, h⟩
      exact ⟨hl, fun i hi1 _ => h i hi1⟩
  refine ⟨heq, hext, ?_⟩
  rintro ⟨h1, h2⟩
  have l1 := (heq.mp h1).1
  have l2 := (hext.mp h2).1
  omega

/-- Witness for C4 at concrete id lists: [1,2,3] vs [1,2,3] is the no-op
fast path and not an extension; [1,2,3] vs [1,2,3,4] is an extension and
not the no-op fast path. -/
theorem C4_fast_path_predicates_witness :
    model_object_list_equal ⟨[⟨1⟩, ⟨2⟩, ⟨3⟩]⟩ ⟨[⟨1⟩, ⟨2⟩, ⟨3⟩]⟩ = true ∧
    model_object_list_extended ⟨[⟨1⟩, ⟨2⟩, ⟨3⟩]⟩ ⟨[⟨1⟩, ⟨2⟩, ⟨3⟩, ⟨4⟩]⟩ = true ∧
    model_object_list_extended ⟨[⟨1⟩, ⟨2⟩, ⟨3⟩]⟩ ⟨[⟨1⟩, ⟨2⟩, ⟨3⟩]⟩ = false ∧
    model_object_list_equal ⟨[⟨1⟩, ⟨2⟩, ⟨3⟩]⟩ ⟨[⟨1⟩, ⟨2⟩, ⟨3⟩, ⟨4⟩]⟩ = false := by
  have h1 := (C4_fast_path_predicates ⟨[⟨1⟩, ⟨2⟩, ⟨3⟩]⟩ ⟨[⟨1⟩, ⟨2⟩, ⟨3⟩]⟩).1
  have h2 := (C4_fast_path_predicates ⟨[⟨1⟩, ⟨2⟩, ⟨3⟩]⟩ ⟨[⟨1⟩, ⟨2⟩, ⟨3⟩, ⟨4⟩]⟩).2.1
  refine ⟨h1.mpr ⟨rfl, by decide⟩, h2.mpr ⟨by decide, by decide⟩, by decide, by decide⟩

/-! ## C10: objects without model-part volumes are fully outside -/

/-- Without any model-part volume the INSIDE/OUTSIDE bits of an instance
stay clear. -/
theorem ModelObject.pvBits_no_parts (pv : BBox) (i : ModelInstance) (vols : List ModelVolume)
    (h : ∀ v ∈ vols, v.is_model_part = false) : ModelObject.pvBits vols pv i = (false, false) := by
  revert h
  induction vols with
  | nil => intro _; rfl
  | cons v vs ih =>
    intro h
    have hv : v.is_model_part = false := h v (by simp)
    have hrest : ∀ w ∈ vs, w.is_model_part = false := fun w hw => h w (by simp [hw])
    unfold ModelObject.pvBits
    simp only [List.foldl_cons, hv, Bool.false_eq_true, if_false]
    exact ih hrest

/-- C10.  For every ModelObject with no model-part volume (no volumes, or
only modifier/enforcer/blocker volumes), check_instances_print_volume_state
classifies every instance as fully outside and reports zero printable
instances, for every print volume and any instance transforms. -/
theorem C10_no_model_part_all_outside (o : ModelObject) (pv : BBox)
    (h : ∀ v ∈ o.volumes, v.is_model_part = false) :
    (o.check_instances_print_volume_state pv).1 = 0 ∧
    (o.check_instances_print_volume_state pv).2.instances =
      o.instances.map (fun i => { i with printVolumeState := PVS.fullyOutside }) ∧
    ∀ i ∈ (o.check_instances_print_volume_state pv).2.instances,
      i.printVolumeState = PVS.fullyOutside := by
  have key : ∀ (insts : List ModelInstance) (n : ℕ) (acc : List ModelInstance),
      insts.foldl (ModelObject.pvStep o.volumes pv) (n, acc) =
      (n, acc ++ insts.map (fun i => { i with printVolumeState := PVS.fullyOutside })) := by
    intro insts
    induction insts with
    | nil => intro n acc; simp
    | cons i is ih =>
      intro n acc
      rw [List.foldl_cons]
      have hstep : ModelObject.pvStep o.volumes pv (n, acc) i
          = (n, acc ++ [{ i with printVolumeState := PVS.fullyOutside }]) := by
        unfold ModelObject.pvStep
        rw [ModelObject.pvBits_no_parts pv i o.volumes h]
        have hcl : ModelObject.pvClassify (false, false) = PVS.fullyOutside := by decide
        simp [hcl]
      rw [hstep, ih, List.map_cons]
      simp
  have hmain := key o.instances 0 []
  refine ⟨?_, ?_, ?_⟩
  · simp only [ModelObject.check_instances_print_volume_state, hmain]
  · simp only [ModelObject.check_instances_print_volume_state, hmain, List.nil_append]
  · intro i hi
    simp only [ModelObject.check_instances_print_volume_state, hmain, List.nil_append] at hi
    obtain ⟨j, _, rfl⟩ := List.mem_map.mp hi
    rfl

/-- Witness for C10: an object with one parameter-modifier volume and two
differently placed instances reports zero printable instances and marks
both as fully outside, even against an all-containing print volume. -/
theorem C10_no_model_part_all_outside_witness :
    (ModelObject.check_instances_print_volume_state
      ⟨[⟨[⟨⟨0,0,0⟩,⟨1,0,0⟩,⟨0,1,0⟩⟩], [⟨⟨0,0,0⟩,⟨1,0,0⟩,⟨0,1,0⟩⟩],
        Trafo.idT, VolumeType.parameterModifier⟩],
       [⟨Trafo.idT, PVS.inside⟩, ⟨Trafo.idT.setOffset ⟨5, 5, 0⟩, PVS.inside⟩],
       Vec3.zero, BBox.empty, false⟩
      ⟨⟨-100, -100, -100⟩, ⟨100, 100, 100⟩, true⟩).1 = 0 ∧
    ∀ i ∈ (ModelObject.check_instances_print_volume_state
      ⟨[⟨[⟨⟨0,0,0⟩,⟨1,0,0⟩,⟨0,1,0⟩⟩], [⟨⟨0,0,0⟩,⟨1,0,0⟩,⟨0,1,0⟩⟩],
        Trafo.idT, VolumeType.parameterModifier⟩],
       [⟨Trafo.idT, PVS.inside⟩, ⟨Trafo.idT.setOffset ⟨5, 5, 0⟩, PVS.inside⟩],
       Vec3.zero, BBox.empty, false⟩
      ⟨⟨-100, -100, -100⟩, ⟨100, 100, 100⟩, true⟩).2.instances,
      i.printVolumeState = PVS.fullyOutside := by
  have h := C10_no_model_part_all_outside
    ⟨[⟨[⟨⟨0,0,0⟩,⟨1,0,0⟩,⟨0,1,0⟩⟩], [⟨⟨0,0,0⟩,⟨1,0,0⟩,⟨0,1,0⟩⟩],
      Trafo.idT, VolumeType.parameterModifier⟩],
     [⟨Trafo.idT, PVS.inside⟩, ⟨Trafo.idT.setOffset ⟨5, 5, 0⟩, PVS.inside⟩],
     Vec3.zero, BBox.empty, false⟩
    ⟨⟨-100, -100, -100⟩, ⟨100, 100, 100⟩, true⟩
    (by intro v hv; simp only [List.mem_singleton] at hv; subst hv; rfl)
  exact ⟨h.1, h.2.2⟩

/-! ## C5: raw_bounding_box with zero instances -/

/-- With no instances, the volume loop of raw_bounding_box raises the
invalid-argument error as soon as it meets a model-part volume. -/
theorem rawBBoxGo_no_instances_error (vols : List ModelVolume) (bb : BBox)
    (h : ∃ v ∈ vols, v.is_model_part = true) :
    ModelObject.rawBBoxGo [] vols bb =
      .error "invalid argument: raw_bounding_box called with no instances" := by
  induction vols generalizing bb with
  | nil => simp at h
  | cons v vs ih =>
    by_cases hv : v.is_model_part = true
    · unfold ModelObject.rawBBoxGo
      rw [if_pos hv]
    · unfold ModelObject.rawBBoxGo
      rw [if_neg hv]
      refine ih bb ?_
      obtain ⟨w, hw, hwp⟩ := h
      rcases List.mem_cons.mp hw with rfl | hmem
      · exact absurd hwp hv
      · exact ⟨w, hmem, hwp⟩

/-- With no instances and no model-part volume, the loop just returns its
accumulator: no error. -/
theorem rawBBoxGo_no_instances_ok (vols : List ModelVolume) (bb : BBox)
    (h : ∀ v ∈ vols, v.is_model_part = false) :
    ModelObject.rawBBoxGo [] vols bb = .ok bb := by
  induction vols generalizing bb with
  | nil => rfl
  | cons v vs ih =>
    have hv : ¬ v.is_model_part = true := by simp [h v (by simp)]
    unfold ModelObject.rawBBoxGo
    rw [if_neg hv]
    exact ih bb (fun w hw => h w (by simp [hw]))

/-- With a first instance present the loop always succeeds and folds the
first-instance-transformed volume boxes. -/
theorem rawBBoxGo_with_instance (i0 : ModelInstance) (rest : List ModelInstance)
    (vols : List ModelVolume) (bb : BBox) :
    ModelObject.rawBBoxGo (i0 :: rest) vols bb =
      .ok (vols.foldl
        (fun bb v =>
          if v.is_model_part then
            bb.mergeBox (i0.transform_mesh_bounding_box
              (meshTransform v.trafo.matrix v.mesh) true)
          else bb)
        bb) := by
  induction vols generalizing bb with
  | nil => rfl
  | cons v vs ih =>
    by_cases hv : v.is_model_part = true
    · unfold ModelObject.rawBBoxGo
      rw [if_pos hv, List.foldl_cons, if_pos hv]
      exact ih _
    · unfold ModelObject.rawBBoxGo
      rw [if_neg hv, List.foldl_cons, if_neg hv]
      exact ih _

/-- C5 (amended).  raw_bounding_box fails with the invalid-argument error on
a zero-instance object exactly when the object has a model-part volume: with
zero instances and at least one model-part volume it raises the error (and
being a pure function it modifies nothing); with zero instances and no
model-part volume it silently returns the empty box; with at least one
instance it returns the merged, snug, first-instance-transformed bounding
box of the model-part volumes without error. -/
theorem C5_raw_bounding_box_amended (o : ModelObject) :
    (o.instances = [] → (∃ v ∈ o.volumes, v.is_model_part = true) →
      o.raw_bounding_box =
        .error "invalid argument: raw_bounding_box called with no instances") ∧
    (o.instances = [] → (∀ v ∈ o.volumes, v.is_model_part = false) →
      o.raw_bounding_box = .ok BBox.empty) ∧
    (o.instances ≠ [] → o.raw_bounding_box = .ok o.rawBBoxPure) := by
  refine ⟨?_, ?_, ?_⟩
  · intro hi hv
    unfold ModelObject.raw_bounding_box
    rw [hi]
    exact rawBBoxGo_no_instances_error o.volumes BBox.empty hv
  · intro hi hv
    unfold ModelObject.raw_bounding_box
    rw [hi]
    exact rawBBoxGo_no_instances_ok o.volumes BBox.empty hv
  · intro hi
    obtain ⟨i0, rest, hins⟩ : ∃ i0 rest, o.instances = i0 :: rest := by
      cases h : o.instances with
      | nil => exact absurd h hi
      | cons a l => exact ⟨a, l, rfl⟩
    unfold ModelObject.raw_bounding_box ModelObject.rawBBoxPure
    rw [hins]
    have hgetD : (i0 :: rest).getD 0 default = i0 := rfl
    rw [rawBBoxGo_with_instance, hgetD]

/-- Counterexample to C5 as stated.  The claim says every ModelObject with
zero instances fails raw_bounding_box with an invalid-argument error; an
object whose only volume is a parameter modifier (and likewise one with no
volumes at all) has zero instances yet returns the empty box without any
error, because the source only throws inside the model-part branch of the
volume loop. -/
theorem C5_counterexample :
    c5ModifierObject.instances = [] ∧
    c5ModifierObject.raw_bounding_box = .ok BBox.empty := by
  constructor
  · rfl
  · rfl

/-- Witness for C5 at concrete objects: with zero instances and a model-part
volume the error is raised; with one instance present the merged box is
returned. -/
theorem C5_raw_bounding_box_amended_witness :
    (ModelObject.raw_bounding_box
      ⟨[⟨[⟨⟨0,0,0⟩,⟨1,0,0⟩,⟨0,1,0⟩⟩], [⟨⟨0,0,0⟩,⟨1,0,0⟩,⟨0,1,0⟩⟩],
         Trafo.idT, VolumeType.modelPart⟩], [], Vec3.zero, BBox.empty, false⟩ =
      .error "invalid argument: raw_bounding_box called with no instances") ∧
    (ModelObject.raw_bounding_box
      ⟨[⟨[⟨⟨0,0,0⟩,⟨1,0,0⟩,⟨0,1,0⟩⟩], [⟨⟨0,0,0⟩,⟨1,0,0⟩,⟨0,1,0⟩⟩],
         Trafo.idT, VolumeType.modelPart⟩],
        [⟨Trafo.idT, PVS.inside⟩], Vec3.zero, BBox.empty, false⟩ =
      .ok ⟨⟨0,0,0⟩, ⟨1,1,0⟩, true⟩) := by
  constructor
  · exact (C5_raw_bounding_box_amended _).1 rfl
      ⟨⟨[⟨⟨0,0,0⟩,⟨1,0,0⟩,⟨0,1,0⟩⟩], [⟨⟨0,0,0⟩,⟨1,0,0⟩,⟨0,1,0⟩⟩],
        Trafo.idT, VolumeType.modelPart⟩, by simp, rfl⟩
  · have h := (C5_raw_bounding_box_amended
      ⟨[⟨[⟨⟨0,0,0⟩,⟨1,0,0⟩,⟨0,1,0⟩⟩], [⟨⟨0,0,0⟩,⟨1,0,0⟩,⟨0,1,0⟩⟩],
         Trafo.idT, VolumeType.modelPart⟩],
        [⟨Trafo.idT, PVS.inside⟩], Vec3.zero, BBox.empty, false⟩).2.2 (by simp)
    rw [h]
    with_unfolding_all rfl

/-! ## C2: the bounding-box cache contract -/

/-- Counterexample to C2 as stated.  ModelObject::translate is a mutating
operation of the claim list, yet it does not mark the cache invalid — it
translates the cached box in place.  On an object whose only instance
mirrors X, the patched cache disagrees with a from-scratch recomputation:
after reading the box (filling the cache) and translating by (1,0,0), the
next read returns the stale patched cache [(0,0,0),(1,1,0)] while the
recomputation gives [(-2,0,0),(-1,1,0)] (the mirrored image of the shifted
volume). -/
theorem C2_counterexample :
    ((c2MirrorObject.bounding_box.2.translate ⟨1,0,0⟩).mBoundingBoxValid = true) ∧
    (c2MirrorObject.bounding_box.2.translate ⟨1,0,0⟩).bounding_box.1 =
      ⟨⟨0,0,0⟩, ⟨1,1,0⟩, true⟩ ∧
    (c2MirrorObject.bounding_box.2.translate ⟨1,0,0⟩).computeBoundingBox =
      ⟨⟨-2,0,0⟩, ⟨-1,1,0⟩, true⟩ ∧
    (c2MirrorObject.bounding_box.2.translate ⟨1,0,0⟩).bounding_box.1 ≠
      (c2MirrorObject.bounding_box.2.translate ⟨1,0,0⟩).computeBoundingBox := by
  have h1 : (c2MirrorObject.bounding_box.2.translate ⟨1,0,0⟩).mBoundingBoxValid = true := by
    with_unfolding_all rfl
  have h2 : (c2MirrorObject.bounding_box.2.translate ⟨1,0,0⟩).bounding_box.1 =
      ⟨⟨0,0,0⟩, ⟨1,1,0⟩, true⟩ := by
    with_unfolding_all rfl
  have h3 : (c2MirrorObject.bounding_box.2.translate ⟨1,0,0⟩).computeBoundingBox =
      ⟨⟨-2,0,0⟩, ⟨-1,1,0⟩, true⟩ := by
    with_unfolding_all rfl
  have hne : (⟨⟨0,0,0⟩, ⟨1,1,0⟩, true⟩ : BBox) ≠ ⟨⟨-2,0,0⟩, ⟨-1,1,0⟩, true⟩ := by
    intro h
    have hx := congrArg (fun b => b.bmin.x) h
    norm_num at hx
  exact ⟨h1, h2, h3, by rw [h2, h3]; exact hne⟩

/-- C2 (amended).  Every mutating operation of the claim list except
translate marks the bounding-box cache invalid, so the next bounding_box()
read equals a from-scratch recomputation over model-part volumes and
instance transforms; translate alone keeps the validity flag and patches a
valid cached box by translating it by the same vector (which coincides with
recomputation only for translation-only instance transforms, see the
counterexample). -/
theorem C2_bbox_cache_amended (o : ModelObject) (op : MOp) :
    (op.isTranslate = false →
      ((op.apply o).mBoundingBoxValid = false ∧
       (op.apply o).bounding_box.1 = (op.apply o).computeBoundingBox)) ∧
    (∀ d : Vec3,
      ((MOp.translate d).apply o).mBoundingBoxValid = o.mBoundingBoxValid ∧
      ((MOp.translate d).apply o).mBoundingBox =
        (if o.mBoundingBoxValid then o.mBoundingBox.translate d else o.mBoundingBox)) := by
  constructor
  · intro hop
    have hval : (op.apply o).mBoundingBoxValid = false := by
      cases op <;> simp_all [MOp.isTranslate, MOp.apply, ModelObject.add_volume,
        ModelObject.delete_volume, ModelObject.clear_volumes, ModelObject.add_instance,
        ModelObject.delete_instance, ModelObject.clear_instances, ModelObject.scale,
        ModelObject.rotateX, ModelObject.rotateY, ModelObject.rotateZ,
        ModelObject.mirrorX, ModelObject.mirrorY, ModelObject.mirrorZ,
        ModelObject.invalidate_bounding_box]
    refine ⟨hval, ?_⟩
    simp [ModelObject.bounding_box, hval]
  · intro d
    exact ⟨rfl, rfl⟩

/-- Witness for C2 (amended) at concrete inputs: scaling the mirrored
object invalidates its freshly filled cache, and translate keeps the flag
while shifting the cached value. -/
theorem C2_bbox_cache_amended_witness :
    ((MOp.scale ⟨2,2,2⟩).apply c2MirrorObject.bounding_box.2).mBoundingBoxValid = false ∧
    ((MOp.translate ⟨1,0,0⟩).apply c2MirrorObject.bounding_box.2).mBoundingBoxValid =
      c2MirrorObject.bounding_box.2.mBoundingBoxValid := by
  have h := C2_bbox_cache_amended c2MirrorObject.bounding_box.2 (MOp.scale ⟨2,2,2⟩)
  exact ⟨(h.1 rfl).1, (h.2 ⟨1,0,0⟩).1⟩

/-! ## C6: delete_volume recentring -/

/-- Componentwise normal forms of the vector operations, used to reduce the
affine algebra of the following claims to rational arithmetic. -/
@[simp] theorem Vec3.add_def (a b : Vec3) : a + b = ⟨a.x + b.x, a.y + b.y, a.z + b.z⟩ := rfl

@[simp] theorem Vec3.sub_def (a b : Vec3) : a - b = ⟨a.x - b.x, a.y - b.y, a.z - b.z⟩ := rfl

@[simp] theorem Vec3.neg_def (a : Vec3) : -a = ⟨-a.x, -a.y, -a.z⟩ := rfl

@[simp] theorem Vec3.smul_def (q : ℚ) (a : Vec3) :
    Vec3.smul q a = ⟨q * a.x, q * a.y, q * a.z⟩ := rfl

@[simp] theorem Vec3.cmin_def (a b : Vec3) :
    Vec3.cmin a b = ⟨min a.x b.x, min a.y b.y, min a.z b.z⟩ := rfl

@[simp] theorem Vec3.cmax_def (a b : Vec3) :
    Vec3.cmax a b = ⟨max a.x b.x, max a.y b.y, max a.z b.z⟩ := rfl

@[simp] theorem Vec3.zero_def : Vec3.zero = ⟨0, 0, 0⟩ := rfl

@[simp] theorem Vec3.ones_def : Vec3.ones = ⟨1, 1, 1⟩ := rfl

/-- Changing only the offset of a transformation keeps its linear part. -/
theorem Trafo.linearPart_setOffset (t : Trafo) (o : Vec3) :
    (t.setOffset o).linearPart = t.linearPart := by
  rcases t with ⟨off, rot, sc, mir, raw⟩
  cases raw <;> rfl

/-- The stored offset after set_offset. -/
theorem Trafo.offset_setOffset (t : Trafo) (o : Vec3) : (t.setOffset o).offset = o := rfl

/-- The assembled linear part of an identity rotation/scale/mirror is the
identity matrix, whatever the translation. -/
theorem assembleA_id (t : Vec3) :
    (assembleTransform t Vec3.zero Vec3.ones Vec3.ones).A = Mat3.idm := by
  with_unfolding_all rfl

/-- Merging a translated point into a translated box commutes with the
translation. -/
theorem BBox.mergePt_translate (bb : BBox) (p d : Vec3) :
    (bb.translate d).mergePt (p + d) = (bb.mergePt p).translate d := by
  rcases bb with ⟨bmin, bmax, df⟩
  cases df <;>
    simp [BBox.mergePt, BBox.translate, min_add_add_right, max_add_add_right]

/-- The fold of meshBBox over a translated soup from a translated start. -/
theorem meshBBox_fold_translate (d : Vec3) (m : Mesh) (bb : BBox) :
    (meshTranslate d m).foldl (fun bb t => ((bb.mergePt t.a).mergePt t.b).mergePt t.c)
      (bb.translate d) =
    (m.foldl (fun bb t => ((bb.mergePt t.a).mergePt t.b).mergePt t.c) bb).translate d := by
  induction m generalizing bb with
  | nil => rfl
  | cons t ts ih =>
    simp only [meshTranslate, List.map_cons, List.foldl_cons]
    rw [BBox.mergePt_translate, BBox.mergePt_translate, BBox.mergePt_translate]
    exact ih _

/-- The bounding box of a translated non-empty soup is the translated
bounding box. -/
theorem meshBBox_translate (d : Vec3) (m : Mesh) (h : m ≠ []) :
    meshBBox (meshTranslate d m) = (meshBBox m).translate d := by
  cases m with
  | nil => exact absurd rfl h
  | cons t ts =>
    unfold meshBBox
    simp only [meshTranslate, List.map_cons, List.foldl_cons]
    have hempty : ∀ q : Vec3, BBox.empty.mergePt (q + d) = (BBox.empty.mergePt q).translate d := by
      intro q
      rcases q with ⟨qx, qy, qz⟩
      rcases d with ⟨dx, dy, dz⟩
      simp [BBox.mergePt, BBox.translate, BBox.empty]
    rw [hempty, BBox.mergePt_translate, BBox.mergePt_translate]
    exact meshBBox_fold_translate d ts _

/-- The center of a translated box. -/
theorem BBox.center_translate (bb : BBox) (d : Vec3) :
    (bb.translate d).center = bb.center + d := by
  rcases bb with ⟨bmin, bmax, df⟩
  simp only [BBox.center, BBox.translate, Vec3.smul_def, Vec3.add_def, Vec3.mk.injEq]
  refine ⟨by ring, by ring, by ring⟩

/-- The vertex computation of the C6 preservation: with an identity volume
linear part, recentring the mesh by sh, folding the removed offset
(transformed by the instance linear part) into the instance translation and
zeroing the volume offset lands every vertex at its former place. -/
theorem c6_vertex (A : Mat3) (ti oo sh p : Vec3) :
    ((Affine.mk A (ti + (A.mulVec (oo + -sh) + Vec3.zero))).comp
      (Affine.mk Mat3.idm Vec3.zero)).apply (p + sh) =
    ((Affine.mk A ti).comp (Affine.mk Mat3.idm oo)).apply p := by
  rcases A with ⟨⟨a0, a1, a2⟩, ⟨b0, b1, b2⟩, ⟨c0, c1, c2⟩⟩
  rcases ti with ⟨t0, t1, t2⟩
  rcases oo with ⟨o0, o1, o2⟩
  rcases sh with ⟨s0, s1, s2⟩
  rcases p with ⟨p0, p1, p2⟩
  simp only [Affine.comp, Affine.apply, Mat3.mul, Mat3.mulVec, Mat3.dot, Mat3.col0,
    Mat3.col1, Mat3.col2, Mat3.idm, Vec3.zero_def, Vec3.add_def, Vec3.neg_def,
    Vec3.mk.injEq]
  refine ⟨by ring, by ring, by ring⟩

/-- C6 (amended).  Deleting one of the two volumes of an Object recenters
the remaining volume about the origin (its mesh bounding-box center becomes
zero) and zeroes its local offset, folding the removed offset, transformed
by the translation-free instance matrix, into every instance translation;
the world-space position of the remaining geometry under each instance
transform is unchanged PROVIDED the remaining volume carries an identity
rotation/scaling/mirror of its own (with a non-identity volume transform
the recentring moves the geometry, see the counterexample). -/
theorem C6_delete_volume_amended (o : ModelObject) (idx : ℕ)
    (_h2 : o.volumes.length = 2)
    (v : ModelVolume) (hrem : o.volumes.eraseIdx idx = [v])
    (hrot : v.trafo.rotation = Vec3.zero) (hscale : v.trafo.scaling = Vec3.ones)
    (hmirror : v.trafo.mirror = Vec3.ones) (hraw : v.trafo.rawLinear = none)
    (hmesh : v.mesh ≠ []) :
    ∃ v' : ModelVolume,
      (o.delete_volume idx).volumes = [v'] ∧
      v'.trafo.offset = Vec3.zero ∧
      (meshBBox v'.mesh).center = Vec3.zero ∧
      (o.delete_volume idx).instances.length = o.instances.length ∧
      (∀ j, j < o.instances.length →
        volumeWorldMesh ((o.delete_volume idx).instances.getD j default) v' =
        volumeWorldMesh (o.instances.getD j default) v) := by
  have hLv : v.trafo.linearPart = Mat3.idm := by
    simp only [Trafo.linearPart, hraw, hrot, hscale, hmirror]
    exact assembleA_id _
  refine ⟨{ v.center_geometry with trafo := v.center_geometry.trafo.setOffset Vec3.zero },
    ?_, rfl, ?_, ?_, ?_⟩
  · simp only [ModelObject.delete_volume, hrem, ModelObject.invalidate_bounding_box]
  · show (meshBBox (meshTranslate (-(meshBBox v.mesh).center) v.mesh)).center = Vec3.zero
    rw [meshBBox_translate _ _ hmesh, BBox.center_translate]
    simp only [Vec3.add_def, Vec3.neg_def, Vec3.zero_def, Vec3.mk.injEq]
    refine ⟨by ring, by ring, by ring⟩
  · simp only [ModelObject.delete_volume, hrem, ModelObject.invalidate_bounding_box,
      List.length_map]
  · intro j hj
    simp only [ModelObject.delete_volume, hrem, ModelObject.invalidate_bounding_box]
    have hjm : j < (o.instances.map (fun i =>
        { i with trafo := (i.trafo.setOffset (i.trafo.offset +
            i.trafo.matrixNoOffset.apply v.center_geometry.trafo.offset)) })).length := by
      simpa using hj
    rw [List.getD_eq_getElem _ _ hjm, List.getElem_map, ← List.getD_eq_getElem _ default hj]
    set i := o.instances.getD j default with hi
    set A := i.trafo.linearPart with hA
    set sh := -(meshBBox v.mesh).center with hsh
    have hvol : v.center_geometry.trafo.offset = v.trafo.offset + -sh := rfl
    have hmat1 : ({ i with trafo := (i.trafo.setOffset (i.trafo.offset +
          i.trafo.matrixNoOffset.apply v.center_geometry.trafo.offset)) }
            : ModelInstance).trafo.matrix =
        Affine.mk A (i.trafo.offset + (A.mulVec (v.trafo.offset + -sh) + Vec3.zero)) := by
      simp only [Trafo.matrix, Trafo.linearPart_setOffset, Trafo.offset_setOffset,
        Trafo.matrixNoOffset, Affine.apply, hvol]
    have hmat2 : ({ v.center_geometry with
        trafo := v.center_geometry.trafo.setOffset Vec3.zero } : ModelVolume).trafo.matrix =
        Affine.mk Mat3.idm Vec3.zero := by
      simp only [Trafo.matrix, Trafo.linearPart_setOffset, Trafo.offset_setOffset]
      have : v.center_geometry.trafo.linearPart = v.trafo.linearPart := by
        show (v.trafo.setOffset _).linearPart = v.trafo.linearPart
        exact Trafo.linearPart_setOffset _ _
      rw [this, hLv]
    have hmat3 : i.trafo.matrix = Affine.mk A i.trafo.offset := rfl
    have hmat4 : v.trafo.matrix = Affine.mk Mat3.idm v.trafo.offset := by
      simp only [Trafo.matrix, hLv]
    unfold volumeWorldMesh
    rw [hmat1, hmat2, hmat3, hmat4]
    show meshTransform _ (meshTranslate sh v.mesh) = _
    unfold meshTransform meshTranslate
    rw [List.map_map]
    refine List.map_congr_left ?_
    intro t _
    simp only [Function.comp]
    rw [c6_vertex, c6_vertex, c6_vertex]

/-- Counterexample to C6 as stated.  On the concrete two-volume object whose
remaining volume scales X by 2 and has an off-center mesh, deleting the
other volume changes the world-space position of the remaining geometry:
the recentring shift is applied to the mesh before the volume scaling, but
it is folded into the instance translation without that scaling. -/
theorem C6_counterexample :
    c6Object.volumes.length = 2 ∧
    (c6Object.delete_volume 1).volumes.length = 1 ∧
    volumeWorldMesh ((c6Object.delete_volume 1).instances.getD 0 default)
      ((c6Object.delete_volume 1).volumes.getD 0 default) =
      [⟨⟨-1,0,0⟩, ⟨3,0,0⟩, ⟨-1,2,0⟩⟩] ∧
    volumeWorldMesh (c6Object.instances.getD 0 default)
      (c6Object.volumes.getD 0 default) =
      [⟨⟨0,0,0⟩, ⟨4,0,0⟩, ⟨0,2,0⟩⟩] ∧
    volumeWorldMesh ((c6Object.delete_volume 1).instances.getD 0 default)
      ((c6Object.delete_volume 1).volumes.getD 0 default) ≠
    volumeWorldMesh (c6Object.instances.getD 0 default)
      (c6Object.volumes.getD 0 default) := by
  have h1 : c6Object.volumes.length = 2 := rfl
  have h2 : (c6Object.delete_volume 1).volumes.length = 1 := by with_unfolding_all rfl
  have h3 : volumeWorldMesh ((c6Object.delete_volume 1).instances.getD 0 default)
      ((c6Object.delete_volume 1).volumes.getD 0 default) =
      [⟨⟨-1,0,0⟩, ⟨3,0,0⟩, ⟨-1,2,0⟩⟩] := by with_unfolding_all rfl
  have h4 : volumeWorldMesh (c6Object.instances.getD 0 default)
      (c6Object.volumes.getD 0 default) =
      [⟨⟨0,0,0⟩, ⟨4,0,0⟩, ⟨0,2,0⟩⟩] := by with_unfolding_all rfl
  refine ⟨h1, h2, h3, h4, ?_⟩
  rw [h3, h4]
  intro h
  have hx := congrArg (fun l => ((l.getD 0 ⟨⟨9,9,9⟩,⟨9,9,9⟩,⟨9,9,9⟩⟩).a).x) h
  norm_num at hx

/-- Witness for C6 (amended): a two-volume object whose remaining volume has
the identity transform but an off-center mesh; after the deletion the world
placement of the mesh under the single shifted instance is unchanged. -/
theorem C6_delete_volume_amended_witness :
    (ModelObject.delete_volume
      ⟨[⟨[⟨⟨1,1,0⟩,⟨3,1,0⟩,⟨1,3,0⟩⟩], [⟨⟨1,1,0⟩,⟨3,1,0⟩,⟨1,3,0⟩⟩],
         Trafo.idT, VolumeType.modelPart⟩,
        ⟨[⟨⟨5,5,5⟩,⟨6,5,5⟩,⟨5,6,5⟩⟩], [⟨⟨5,5,5⟩,⟨6,5,5⟩,⟨5,6,5⟩⟩],
         Trafo.idT, VolumeType.modelPart⟩],
       [⟨Trafo.idT.setOffset ⟨10,0,0⟩, PVS.inside⟩],
       Vec3.zero, BBox.empty, false⟩ 1).volumes.length = 1 ∧
    volumeWorldMesh ((ModelObject.delete_volume
      ⟨[⟨[⟨⟨1,1,0⟩,⟨3,1,0⟩,⟨1,3,0⟩⟩], [⟨⟨1,1,0⟩,⟨3,1,0⟩,⟨1,3,0⟩⟩],
         Trafo.idT, VolumeType.modelPart⟩,
        ⟨[⟨⟨5,5,5⟩,⟨6,5,5⟩,⟨5,6,5⟩⟩], [⟨⟨5,5,5⟩,⟨6,5,5⟩,⟨5,6,5⟩⟩],
         Trafo.idT, VolumeType.modelPart⟩],
       [⟨Trafo.idT.setOffset ⟨10,0,0⟩, PVS.inside⟩],
       Vec3.zero, BBox.empty, false⟩ 1).instances.getD 0 default)
      (((ModelObject.delete_volume
      ⟨[⟨[⟨⟨1,1,0⟩,⟨3,1,0⟩,⟨1,3,0⟩⟩], [⟨⟨1,1,0⟩,⟨3,1,0⟩,⟨1,3,0⟩⟩],
         Trafo.idT, VolumeType.modelPart⟩,
        ⟨[⟨⟨5,5,5⟩,⟨6,5,5⟩,⟨5,6,5⟩⟩], [⟨⟨5,5,5⟩,⟨6,5,5⟩,⟨5,6,5⟩⟩],
         Trafo.idT, VolumeType.modelPart⟩],
       [⟨Trafo.idT.setOffset ⟨10,0,0⟩, PVS.inside⟩],
       Vec3.zero, BBox.empty, false⟩ 1).volumes).getD 0 default) =
    volumeWorldMesh (ModelInstance.mk (Trafo.idT.setOffset ⟨10,0,0⟩) PVS.inside)
      ⟨[⟨⟨1,1,0⟩,⟨3,1,0⟩,⟨1,3,0⟩⟩], [⟨⟨1,1,0⟩,⟨3,1,0⟩,⟨1,3,0⟩⟩],
       Trafo.idT, VolumeType.modelPart⟩ := by
  have h := C6_delete_volume_amended
    ⟨[⟨[⟨⟨1,1,0⟩,⟨3,1,0⟩,⟨1,3,0⟩⟩], [⟨⟨1,1,0⟩,⟨3,1,0⟩,⟨1,3,0⟩⟩],
       Trafo.idT, VolumeType.modelPart⟩,
      ⟨[⟨⟨5,5,5⟩,⟨6,5,5⟩,⟨5,6,5⟩⟩], [⟨⟨5,5,5⟩,⟨6,5,5⟩,⟨5,6,5⟩⟩],
       Trafo.idT, VolumeType.modelPart⟩],
     [⟨Trafo.idT.setOffset ⟨10,0,0⟩, PVS.inside⟩],
     Vec3.zero, BBox.empty, false⟩ 1 rfl
    ⟨[⟨⟨1,1,0⟩,⟨3,1,0⟩,⟨1,3,0⟩⟩], [⟨⟨1,1,0⟩,⟨3,1,0⟩,⟨1,3,0⟩⟩],
     Trafo.idT, VolumeType.modelPart⟩
    rfl rfl rfl rfl rfl (by simp)
  obtain ⟨v', hvols, _, _, _, hpres⟩ := h
  constructor
  · rw [hvols]; rfl
  · have hp := hpres 0 (by norm_num)
    rw [hvols]
    have h5 : ([v'] : List ModelVolume).getD 0 default = v' := rfl
    rw [h5, hp]
    rfl

/-! ## C3: the identity registry -/

open List

/-- Replacing one element of a list by one whose image under f carries the
old image plus some extra ids permutes the concatenated image accordingly. -/
theorem set_flatMap_perm {α β : Type} (f : α → List β) :
    ∀ (l : List α) (i : ℕ) (x : α) (extra : List β) (h : i < l.length),
      f x ~ f (l.get ⟨i, h⟩) ++ extra →
      (l.set i x).flatMap f ~ l.flatMap f ++ extra := by
  intro l
  induction l with
  | nil => intro i x extra h; simp at h
  | cons a l ih =>
    intro i x extra h hx
    cases i with
    | zero =>
      show (x :: l).flatMap f ~ (a :: l).flatMap f ++ extra
      simp only [List.flatMap_cons]
      calc f x ++ l.flatMap f
          ~ (f a ++ extra) ++ l.flatMap f := (hx.append_right _)
        _ = f a ++ (extra ++ l.flatMap f) := by rw [List.append_assoc]
        _ ~ f a ++ (l.flatMap f ++ extra) := List.Perm.append_left _ List.perm_append_comm
        _ = (f a ++ l.flatMap f) ++ extra := by rw [List.append_assoc]
    | succ i =>
      show (a :: l.set i x).flatMap f ~ (a :: l).flatMap f ++ extra
      simp only [List.flatMap_cons]
      have hlen : i < l.length := by simpa using h
      have hrec := ih i x extra hlen (by exact hx)
      calc f a ++ (l.set i x).flatMap f
          ~ f a ++ (l.flatMap f ++ extra) := List.Perm.append_left _ hrec
        _ = (f a ++ l.flatMap f) ++ extra := by rw [List.append_assoc]

/-- Replacing one element by one with a sub-image shrinks the concatenated
image to a sublist. -/
theorem set_flatMap_sublist {α β : Type} (f : α → List β) :
    ∀ (l : List α) (i : ℕ) (x : α) (h : i < l.length),
      f x <+ f (l.get ⟨i, h⟩) →
      (l.set i x).flatMap f <+ l.flatMap f := by
  intro l
  induction l with
  | nil => intro i x h; simp at h
  | cons a l ih =>
    intro i x h hx
    cases i with
    | zero =>
      show (x :: l).flatMap f <+ (a :: l).flatMap f
      simp only [List.flatMap_cons]
      exact hx.append (List.Sublist.refl _)
    | succ i =>
      show (a :: l.set i x).flatMap f <+ (a :: l).flatMap f
      simp only [List.flatMap_cons]
      have hlen : i < l.length := by simpa using h
      exact (List.Sublist.refl (f a)).append (ih i x hlen hx)

/-- Prepending a head and an unchanged tail block to a permuted middle
block keeps the extra ids separable at the end. -/
theorem cons_append_perm_extra {β : Type} (x : β) (A₂ A B E : List β)
    (h : A₂ ~ A ++ E) : (x :: (A₂ ++ B)) ~ (x :: (A ++ B)) ++ E := by
  show (x :: (A₂ ++ B)) ~ x :: ((A ++ B) ++ E)
  refine List.Perm.cons x ?_
  calc A₂ ++ B ~ (A ++ E) ++ B := h.append_right _
    _ = A ++ (E ++ B) := by rw [List.append_assoc]
    _ ~ A ++ (B ++ E) := List.Perm.append_left _ List.perm_append_comm
    _ = (A ++ B) ++ E := by rw [List.append_assoc]

/-- The sublist companion of cons_append_perm_extra. -/
theorem cons_append_sublist {β : Type} (x : β) (A₂ A B : List β)
    (h : A₂ <+ A) : (x :: (A₂ ++ B)) <+ (x :: (A ++ B)) :=
  List.Sublist.cons₂ x (h.append (List.Sublist.refl B))

/-- Replacing the same position by two different elements whose images
differ by a trailing extra block permutes the concatenated images
accordingly. -/
theorem set_set_flatMap_perm {α β : Type} (f : α → List β) :
    ∀ (l : List α) (i : ℕ) (x y : α) (extra : List β), i < l.length →
      f x ~ f y ++ extra →
      (l.set i x).flatMap f ~ (l.set i y).flatMap f ++ extra := by
  intro l
  induction l with
  | nil => intro i x y extra h _; simp at h
  | cons a l ih =>
    intro i x y extra h hx
    cases i with
    | zero =>
      show (x :: l).flatMap f ~ (y :: l).flatMap f ++ extra
      simp only [List.flatMap_cons]
      calc f x ++ l.flatMap f
          ~ (f y ++ extra) ++ l.flatMap f := hx.append_right _
        _ = f y ++ (extra ++ l.flatMap f) := by rw [List.append_assoc]
        _ ~ f y ++ (l.flatMap f ++ extra) := List.Perm.append_left _ List.perm_append_comm
        _ = (f y ++ l.flatMap f) ++ extra := by rw [List.append_assoc]
    | succ i =>
      show (a :: l.set i x).flatMap f ~ (a :: l.set i y).flatMap f ++ extra
      simp only [List.flatMap_cons]
      calc f a ++ (l.set i x).flatMap f
          ~ f a ++ ((l.set i y).flatMap f ++ extra) :=
            List.Perm.append_left _ (ih i x y extra (by simpa using h) hx)
        _ = (f a ++ (l.set i y).flatMap f) ++ extra := by rw [List.append_assoc]

/-- Membership in a list after a positional update. -/
theorem mem_set_cases {α : Type} : ∀ (l : List α) (i : ℕ) (x y : α),
    y ∈ l.set i x → y ∈ l ∨ y = x := by
  intro l
  induction l with
  | nil => intro i x y h; simp at h
  | cons a l ih =>
    intro i x y h
    cases i with
    | zero =>
      rcases List.mem_cons.mp h with rfl | hm
      · exact Or.inr rfl
      · exact Or.inl (List.mem_cons_of_mem _ hm)
    | succ i =>
      rcases List.mem_cons.mp h with rfl | hm
      · exact Or.inl (List.mem_cons_self _ _)
      · rcases ih i x y hm with hy | hy
        · exact Or.inl (List.mem_cons_of_mem _ hy)
        · exact Or.inr hy

/-- A sublist of sources yields a sublist of concatenated images. -/
theorem sublist_flatMap {α β : Type} (f : α → List β) {l₁ l₂ : List α}
    (h : l₁ <+ l₂) : l₁.flatMap f <+ l₂.flatMap f := by
  induction h with
  | slnil => exact List.Sublist.refl _
  | cons a h ih =>
    rw [List.flatMap_cons]
    exact ih.trans (List.sublist_append_right _ _)
  | cons₂ a h ih =>
    rw [List.flatMap_cons, List.flatMap_cons]
    exact (List.Sublist.refl _).append ih

/-- Distinctness of the concatenated images survives replacing one source
by one whose image is a sub-image of the old one extended by a fresh
element. -/
theorem set_flatMap_nodup {α β : Type} (f : α → List β) :
    ∀ (l : List α) (i : ℕ) (x : α) (h : i < l.length) (mids0 : List β) (fresh : β),
      mids0 <+ f (l.get ⟨i, h⟩) → f x ~ mids0 ++ [fresh] →
      (l.flatMap f).Nodup → fresh ∉ l.flatMap f →
      ((l.set i x).flatMap f).Nodup := by
  intro l
  induction l with
  | nil => intro i x h; simp at h
  | cons a t ih =>
    intro i x h mids0 fresh hsub hperm hnd hfresh
    rw [List.flatMap_cons, List.nodup_append] at hnd
    obtain ⟨hnda, hndt, hdisj⟩ := hnd
    rw [List.flatMap_cons, List.mem_append] at hfresh
    push_neg at hfresh
    cases i with
    | zero =>
      show ((x :: t).flatMap f).Nodup
      rw [List.flatMap_cons, List.nodup_append]
      have hsub0 : mids0 <+ f a := hsub
      refine ⟨?_, hndt, ?_⟩
      · refine hperm.nodup_iff.mpr ?_
        rw [List.nodup_append]
        refine ⟨hnda.sublist hsub0, by simp, ?_⟩
        intro y hy hy2
        have : y = fresh := by simpa using hy2
        subst this
        exact hfresh.1 (hsub0.subset hy)
      · intro y hy hyt
        have hy2 := hperm.mem_iff.mp hy
        rcases List.mem_append.mp hy2 with h1 | h1
        · exact hdisj (hsub0.subset h1) hyt
        · have : y = fresh := by simpa using h1
          subst this
          exact hfresh.2 hyt
    | succ i =>
      show ((a :: t.set i x).flatMap f).Nodup
      rw [List.flatMap_cons, List.nodup_append]
      have hlen : i < t.length := by simpa using h
      refine ⟨hnda, ih i x hlen mids0 fresh hsub hperm hndt hfresh.2, ?_⟩
      intro y hy hyt
      rcases List.mem_flatMap.mp hyt with ⟨z, hz, hyz⟩
      rcases mem_set_cases _ _ _ _ hz with hz2 | hz2
      · exact hdisj hy (List.mem_flatMap.mpr ⟨z, hz2, hyz⟩)
      · subst hz2
        have := hperm.mem_iff.mp hyz
        rcases List.mem_append.mp this with h1 | h1
        · have : y ∈ t.flatMap f :=
            (sublist_flatMap f (List.singleton_sublist.mpr (List.get_mem t i hlen))).subset
              (by simpa using hsub.subset h1)
          exact hdisj hy this
        · have : y = fresh := by simpa using h1
          subst this
          exact hfresh.1 hy

/-- The whole invariant bundle for a step that replaces the model at one
position by a model whose ids are a sub-multiset of the old ones plus the
freshly allocated id, and bumps the counter. -/
theorem step_set_alloc (s : PState) (mi : ℕ) (m m2 : EModel) (mids0 : List ℕ)
    (hm : s.models[mi]? = some m)
    (hb : ∀ id ∈ liveIds s, 1 ≤ id ∧ id ≤ s.counter)
    (hsub : mids0 <+ modelIds m)
    (hperm : modelIds m2 ~ mids0 ++ [s.counter + 1]) :
    (∀ id ∈ liveIds ⟨s.models.set mi m2, s.counter + 1⟩, 1 ≤ id ∧ id ≤ s.counter + 1) ∧
    ((liveIds s).Nodup → (liveIds ⟨s.models.set mi m2, s.counter + 1⟩).Nodup) ∧
    ((∀ mm ∈ s.models, (modelIds mm).Nodup) →
      ∀ m3 ∈ s.models.set mi m2, (modelIds m3).Nodup) := by
  obtain ⟨hlt, hgetE⟩ := List.getElem?_eq_some.mp hm
  have hget : s.models.get ⟨mi, hlt⟩ = m := by simpa [List.get_eq_getElem] using hgetE
  have hmm : m ∈ s.models := by
    have := List.get_mem s.models mi hlt
    rwa [hget] at this
  have hmsub : ∀ id ∈ modelIds m, id ∈ liveIds s := by
    intro id hid
    exact List.mem_flatMap.mpr ⟨m, hmm, hid⟩
  refine ⟨?_, ?_, ?_⟩
  · intro id hid
    rcases List.mem_flatMap.mp hid with ⟨m3, hm3, hid3⟩
    rcases mem_set_cases _ _ _ _ hm3 with h3 | h3
    · have := hb id (List.mem_flatMap.mpr ⟨m3, h3, hid3⟩)
      omega
    · subst h3
      have := hperm.mem_iff.mp hid3
      rcases List.mem_append.mp this with h1 | h1
      · have := hb id (hmsub id (hsub.subset h1))
        omega
      · have : id = s.counter + 1 := by simpa using h1
        omega
  · intro hnd
    show ((s.models.set mi m2).flatMap modelIds).Nodup
    refine set_flatMap_nodup modelIds s.models mi m2 hlt mids0 (s.counter + 1)
      (by rw [hget]; exact hsub) hperm hnd ?_
    intro hmem
    have := (hb _ hmem).2
    omega
  · intro hpm m3 hm3
    rcases mem_set_cases _ _ _ _ hm3 with h3 | h3
    · exact hpm m3 h3
    · subst h3
      refine hperm.nodup_iff.mpr ?_
      rw [List.nodup_append]
      refine ⟨(hpm m hmm).sublist hsub, by simp, ?_⟩
      intro y hy hy2
      have hyf : y = s.counter + 1 := by simpa using hy2
      subst hyf
      have := (hb _ (hmsub _ (hsub.subset hy))).2
      omega

/-- The invariant bundle for a step that replaces the model at one position
by a model with a sub-multiset of its ids and keeps the counter. -/
theorem step_set_shrink (s : PState) (mi : ℕ) (m m2 : EModel)
    (hm : s.models[mi]? = some m)
    (hb : ∀ id ∈ liveIds s, 1 ≤ id ∧ id ≤ s.counter)
    (hsub : modelIds m2 <+ modelIds m) :
    (∀ id ∈ liveIds ⟨s.models.set mi m2, s.counter⟩, 1 ≤ id ∧ id ≤ s.counter) ∧
    ((liveIds s).Nodup → (liveIds ⟨s.models.set mi m2, s.counter⟩).Nodup) ∧
    ((∀ mm ∈ s.models, (modelIds mm).Nodup) →
      ∀ m3 ∈ s.models.set mi m2, (modelIds m3).Nodup) := by
  obtain ⟨hlt, hgetE⟩ := List.getElem?_eq_some.mp hm
  have hget : s.models.get ⟨mi, hlt⟩ = m := by simpa [List.get_eq_getElem] using hgetE
  have hmm : m ∈ s.models := by
    have := List.get_mem s.models mi hlt
    rwa [hget] at this
  have hlsub : liveIds ⟨s.models.set mi m2, s.counter⟩ <+ liveIds s :=
    set_flatMap_sublist modelIds s.models mi m2 hlt (by rw [hget]; exact hsub)
  refine ⟨?_, fun hnd => hnd.sublist hlsub, ?_⟩
  · intro id hid
    exact hb id (hlsub.subset hid)
  · intro hpm m3 hm3
    rcases mem_set_cases _ _ _ _ hm3 with h3 | h3
    · exact hpm m3 h3
    · subst h3
      exact (hpm m hmm).sublist hsub

/-- The invariant consequences of one allocation step: the new counter is
one higher and the live ids gained exactly the fresh id. -/
theorem conclude_alloc (s s2 : PState)
    (hb : ∀ id ∈ liveIds s, 1 ≤ id ∧ id ≤ s.counter)
    (hc : s2.counter = s.counter + 1)
    (hperm : liveIds s2 ~ liveIds s ++ [s.counter + 1]) :
    (∀ id ∈ liveIds s2, 1 ≤ id ∧ id ≤ s2.counter) ∧ s.counter ≤ s2.counter ∧
    ((liveIds s).Nodup → (liveIds s2).Nodup) := by
  refine ⟨?_, by omega, ?_⟩
  · intro id hid
    have hmem := hperm.mem_iff.mp hid
    rcases List.mem_append.mp hmem with hm | hm
    · have := hb id hm
      omega
    · have : id = s.counter + 1 := by simpa using hm
      omega
  · intro hnd
    refine (hperm.nodup_iff).mpr ?_
    rw [List.nodup_append]
    refine ⟨hnd, by simp, ?_⟩
    intro a ha hb2
    have h1 := (hb a ha).2
    have h2 : a = s.counter + 1 := by simpa using hb2
    omega

/-- The invariant consequences of one shrinking step. -/
theorem conclude_shrink (s s2 : PState)
    (hb : ∀ id ∈ liveIds s, 1 ≤ id ∧ id ≤ s.counter)
    (hc : s2.counter = s.counter)
    (hsub : liveIds s2 <+ liveIds s) :
    (∀ id ∈ liveIds s2, 1 ≤ id ∧ id ≤ s2.counter) ∧ s.counter ≤ s2.counter ∧
    ((liveIds s).Nodup → (liveIds s2).Nodup) := by
  refine ⟨?_, by omega, fun hnd => hnd.sublist hsub⟩
  intro id hid
  have := hb id (hsub.subset hid)
  omega

/-- One mutation step preserves the id invariants: all live ids stay in
[1, counter], the counter never decreases, pairwise distinctness of all
live ids is kept by every operation except the clone-with-identity copy,
and distinctness within each single model is kept by every operation. -/
theorem step_preserves (s : PState) (op : POp)
    (hb : ∀ id ∈ liveIds s, 1 ≤ id ∧ id ≤ s.counter) :
    (∀ id ∈ liveIds (s.step op), 1 ≤ id ∧ id ≤ (s.step op).counter) ∧
    s.counter ≤ (s.step op).counter ∧
    ((liveIds s).Nodup → (∀ dst src, op ≠ POp.assignCopy dst src) →
      (liveIds (s.step op)).Nodup) ∧
    ((∀ m ∈ s.models, (modelIds m).Nodup) → ∀ m2 ∈ (s.step op).models, (modelIds m2).Nodup) := by
  cases op with
  | newModel =>
    have hli : liveIds (s.step .newModel) = liveIds s ++ [s.counter + 1] := by
      show (s.models ++ ([⟨s.counter + 1, [], []⟩] : List EModel)).flatMap modelIds = _
      rw [List.flatMap_append]
      rfl
    have hcon := conclude_alloc s (s.step .newModel) hb rfl (by rw [hli])
    refine ⟨hcon.1, hcon.2.1, fun hnd _ => hcon.2.2 hnd, ?_⟩
    intro hpm m2 hm2
    rcases List.mem_append.mp hm2 with hm | hm
    · exact hpm m2 hm
    · have h2 : m2 = ⟨s.counter + 1, [], []⟩ := by simpa using hm
      subst h2
      simp [modelIds]
  | addObject mi =>
    cases hm : s.models[mi]? with
    | none =>
      simp only [PState.step, hm]
      exact ⟨hb, le_refl _, fun hnd _ => hnd, fun hpm => hpm⟩
    | some m =>
      have hmperm : modelIds { m with objs := m.objs ++ [⟨s.counter + 1, [], []⟩] } ~
          modelIds m ++ [s.counter + 1] := by
        show (m.mid :: ((m.objs ++ ([⟨s.counter + 1, [], []⟩] : List EObj)).flatMap objIds ++
          m.mats.map (fun p => p.2.matid))) ~ _
        rw [List.flatMap_append]
        exact cons_append_perm_extra _ _ _ _ _ (List.Perm.refl _)
      have hstep := step_set_alloc s mi m _ (modelIds m) hm hb (List.Sublist.refl _) hmperm
      simp only [PState.step, hm]
      exact ⟨hstep.1, by simp, fun hnd _ => hstep.2.1 hnd, hstep.2.2⟩
  | addVolume mi oi =>
    cases hm : s.models[mi]? with
    | none =>
      simp only [PState.step, hm]
      exact ⟨hb, le_refl _, fun hnd _ => hnd, fun hpm => hpm⟩
    | some m =>
      cases hob : m.objs[oi]? with
      | none =>
        simp only [PState.step, hm, hob]
        exact ⟨hb, le_refl _, fun hnd _ => hnd, fun hpm => hpm⟩
      | some ob =>
        obtain ⟨holt, hogetE⟩ := List.getElem?_eq_some.mp hob
        have hoget : m.objs.get ⟨oi, holt⟩ = ob := by
          simpa [List.get_eq_getElem] using hogetE
        have hobperm : objIds { ob with vols := ob.vols ++ [⟨s.counter + 1⟩] } ~
            objIds ob ++ [s.counter + 1] := by
          show (ob.oid :: ((ob.vols ++ ([⟨s.counter + 1⟩] : List EVol)).map (fun x => x.vid) ++
            ob.insts.map (fun x => x.iid))) ~ _
          rw [List.map_append]
          exact cons_append_perm_extra _ _ _ _ _ (List.Perm.refl _)
        have hmperm : modelIds { m with objs := (m.objs.set oi
            { ob with vols := ob.vols ++ [⟨s.counter + 1⟩] }) } ~
            modelIds m ++ [s.counter + 1] := by
          refine cons_append_perm_extra _ _ _ _ _ ?_
          exact set_flatMap_perm objIds m.objs oi _ [s.counter + 1] holt
            (by rw [hoget]; exact hobperm)
        have hstep := step_set_alloc s mi m _ (modelIds m) hm hb (List.Sublist.refl _) hmperm
        simp only [PState.step, hm, hob]
        exact ⟨hstep.1, by simp, fun hnd _ => hstep.2.1 hnd, hstep.2.2⟩
  | addInstance mi oi =>
    cases hm : s.models[mi]? with
    | none =>
      simp only [PState.step, hm]
      exact ⟨hb, le_refl _, fun hnd _ => hnd, fun hpm => hpm⟩
    | some m =>
      cases hob : m.objs[oi]? with
      | none =>
        simp only [PState.step, hm, hob]
        exact ⟨hb, le_refl _, fun hnd _ => hnd, fun hpm => hpm⟩
      | some ob =>
        obtain ⟨holt, hogetE⟩ := List.getElem?_eq_some.mp hob
        have hoget : m.objs.get ⟨oi, holt⟩ = ob := by
          simpa [List.get_eq_getElem] using hogetE
        have hobeq : objIds { ob with insts := ob.insts ++ [⟨s.counter + 1⟩] } =
            objIds ob ++ [s.counter + 1] := by
          simp [objIds, List.map_append, List.append_assoc]
        have hmperm : modelIds { m with objs := (m.objs.set oi
            { ob with insts := ob.insts ++ [⟨s.counter + 1⟩] }) } ~
            modelIds m ++ [s.counter + 1] := by
          refine cons_append_perm_extra _ _ _ _ _ ?_
          refine set_flatMap_perm objIds m.objs oi _ [s.counter + 1] holt ?_
          rw [hoget, hobeq]
        have hstep := step_set_alloc s mi m _ (modelIds m) hm hb (List.Sublist.refl _) hmperm
        simp only [PState.step, hm, hob]
        exact ⟨hstep.1, by simp, fun hnd _ => hstep.2.1 hnd, hstep.2.2⟩
  | addMaterial mi key =>
    cases hm : s.models[mi]? with
    | none =>
      simp only [PState.step, hm]
      exact ⟨hb, le_refl _, fun hnd _ => hnd, fun hpm => hpm⟩
    | some m =>
      by_cases hkey : m.mats.any (fun p => p.1 == key)
      · simp only [PState.step, hm, hkey, if_true]
        exact ⟨hb, le_refl _, fun hnd _ => hnd, fun hpm => hpm⟩
      · have hmeq : modelIds { m with mats := m.mats ++ [(key, ⟨s.counter + 1⟩)] } =
            modelIds m ++ [s.counter + 1] := by
          simp [modelIds, List.map_append, List.append_assoc]
        have hstep := step_set_alloc s mi m _ (modelIds m) hm hb (List.Sublist.refl _)
          (by rw [hmeq])
        simp only [PState.step, hm, hkey, if_false]
        exact ⟨hstep.1, by simp, fun hnd _ => hstep.2.1 hnd, hstep.2.2⟩
  | deleteObject mi oi =>
    cases hm : s.models[mi]? with
    | none =>
      simp only [PState.step, hm]
      exact ⟨hb, le_refl _, fun hnd _ => hnd, fun hpm => hpm⟩
    | some m =>
      have hmsub : modelIds { m with objs := m.objs.eraseIdx oi } <+ modelIds m :=
        cons_append_sublist _ _ _ _ (sublist_flatMap objIds (List.eraseIdx_sublist _ _))
      have hstep := step_set_shrink s mi m _ hm hb hmsub
      simp only [PState.step, hm]
      exact ⟨hstep.1, le_refl _, fun hnd _ => hstep.2.1 hnd, hstep.2.2⟩
  | deleteVolume mi oi vi =>
    cases hm : s.models[mi]? with
    | none =>
      simp only [PState.step, hm]
      exact ⟨hb, le_refl _, fun hnd _ => hnd, fun hpm => hpm⟩
    | some m =>
      cases hob : m.objs[oi]? with
      | none =>
        simp only [PState.step, hm, hob]
        exact ⟨hb, le_refl _, fun hnd _ => hnd, fun hpm => hpm⟩
      | some ob =>
        obtain ⟨holt, hogetE⟩ := List.getElem?_eq_some.mp hob
        have hoget : m.objs.get ⟨oi, holt⟩ = ob := by
          simpa [List.get_eq_getElem] using hogetE
        cases hve : ob.vols.eraseIdx vi with
        | nil =>
          have hobsub : objIds { ob with vols := ([] : List EVol) } <+ objIds ob :=
            List.Sublist.cons₂ _ ((List.nil_sublist _).append (List.Sublist.refl _))
          have hmsub : modelIds { m with objs := (m.objs.set oi
              { ob with vols := ([] : List EVol) }) } <+ modelIds m :=
            cons_append_sublist _ _ _ _
              (set_flatMap_sublist objIds m.objs oi _ holt (by rw [hoget]; exact hobsub))
          have hstep := step_set_shrink s mi m _ hm hb hmsub
          simp only [PState.step, hm, hob, hve]
          exact ⟨hstep.1, le_refl _, fun hnd _ => hstep.2.1 hnd, hstep.2.2⟩
        | cons v rest =>
          cases rest with
          | nil =>
            -- the single remaining volume is given a brand new id
            have hob0sub : objIds { ob with vols := ([] : List EVol) } <+ objIds ob :=
              List.Sublist.cons₂ _ ((List.nil_sublist _).append (List.Sublist.refl _))
            have hobperm : objIds { ob with vols := [(⟨s.counter + 1⟩ : EVol)] } ~
                objIds { ob with vols := ([] : List EVol) } ++ [s.counter + 1] := by
              exact cons_append_perm_extra _ _ _ _ _ (by simp)
            have hmids0sub : (modelIds { m with objs := (m.objs.set oi
                { ob with vols := ([] : List EVol) }) }) <+ modelIds m :=
              cons_append_sublist _ _ _ _
                (set_flatMap_sublist objIds m.objs oi _ holt (by rw [hoget]; exact hob0sub))
            have hmperm : modelIds { m with objs := (m.objs.set oi
                { ob with vols := [(⟨s.counter + 1⟩ : EVol)] }) } ~
                (modelIds { m with objs := (m.objs.set oi
                  { ob with vols := ([] : List EVol) }) }) ++ [s.counter + 1] := by
              refine cons_append_perm_extra _ _ _ _ _ ?_
              exact set_set_flatMap_perm objIds m.objs oi _ _ [s.counter + 1] holt hobperm
            have hstep := step_set_alloc s mi m _ _ hm hb hmids0sub hmperm
            simp only [PState.step, hm, hob, hve]
            exact ⟨hstep.1, by simp, fun hnd _ => hstep.2.1 hnd, hstep.2.2⟩
          | cons v2 rest2 =>
            have hobsub : objIds { ob with vols := v :: v2 :: rest2 } <+ objIds ob := by
              refine List.Sublist.cons₂ _ (List.Sublist.append ?_ (List.Sublist.refl _))
              have := (List.eraseIdx_sublist ob.vols vi).map (·.vid)
              rwa [hve] at this
            have hmsub : modelIds { m with objs := (m.objs.set oi
                { ob with vols := v :: v2 :: rest2 }) } <+ modelIds m :=
              cons_append_sublist _ _ _ _
                (set_flatMap_sublist objIds m.objs oi _ holt (by rw [hoget]; exact hobsub))
            have hstep := step_set_shrink s mi m _ hm hb hmsub
            simp only [PState.step, hm, hob, hve]
            exact ⟨hstep.1, le_refl _, fun hnd _ => hstep.2.1 hnd, hstep.2.2⟩
  | deleteInstance mi oi ii =>
    cases hm : s.models[mi]? with
    | none =>
      simp only [PState.step, hm]
      exact ⟨hb, le_refl _, fun hnd _ => hnd, fun hpm => hpm⟩
    | some m =>
      cases hob : m.objs[oi]? with
      | none =>
        simp only [PState.step, hm, hob]
        exact ⟨hb, le_refl _, fun hnd _ => hnd, fun hpm => hpm⟩
      | some ob =>
        obtain ⟨holt, hogetE⟩ := List.getElem?_eq_some.mp hob
        have hoget : m.objs.get ⟨oi, holt⟩ = ob := by
          simpa [List.get_eq_getElem] using hogetE
        have hobsub : objIds { ob with insts := ob.insts.eraseIdx ii } <+ objIds ob := by
          simp only [objIds]
          exact List.Sublist.cons₂ _ ((List.Sublist.refl _).append
            ((List.eraseIdx_sublist _ _).map _))
        have hmsub : modelIds { m with objs := (m.objs.set oi
            { ob with insts := ob.insts.eraseIdx ii }) } <+ modelIds m :=
          cons_append_sublist _ _ _ _
            (set_flatMap_sublist objIds m.objs oi _ holt (by rw [hoget]; exact hobsub))
        have hstep := step_set_shrink s mi m _ hm hb hmsub
        simp only [PState.step, hm, hob]
        exact ⟨hstep.1, le_refl _, fun hnd _ => hstep.2.1 hnd, hstep.2.2⟩
  | assignCopy dst src =>
    cases hd : s.models[dst]? with
    | none =>
      simp only [PState.step, hd]
      exact ⟨hb, le_refl _, fun hnd _ => hnd, fun hpm => hpm⟩
    | some mdst =>
      cases hsrc : s.models[src]? with
      | none =>
        simp only [PState.step, hd, hsrc]
        exact ⟨hb, le_refl _, fun hnd _ => hnd, fun hpm => hpm⟩
      | some msrc =>
        obtain ⟨hslt, hsgetE⟩ := List.getElem?_eq_some.mp hsrc
        have hsget : s.models.get ⟨src, hslt⟩ = msrc := by
          simpa [List.get_eq_getElem] using hsgetE
        have hsmem : msrc ∈ s.models := by
          have := List.get_mem s.models src hslt
          rwa [hsget] at this
        simp only [PState.step, hd, hsrc]
        refine ⟨?_, le_refl _, ?_, ?_⟩
        · intro id hid
          rcases List.mem_flatMap.mp hid with ⟨m3, hm3, hid3⟩
          rcases mem_set_cases _ _ _ _ hm3 with h3 | h3
          · exact hb id (List.mem_flatMap.mpr ⟨m3, h3, hid3⟩)
          · rw [h3] at hid3
            exact hb id (List.mem_flatMap.mpr ⟨msrc, hsmem, hid3⟩)
        · intro _ hne
          exact absurd rfl (hne dst src)
        · intro hpm m3 hm3
          rcases mem_set_cases _ _ _ _ hm3 with h3 | h3
          · exact hpm m3 h3
          · rw [h3]
            exact hpm msrc hsmem

/-- The invariants extend from one step to whole runs. -/
theorem run_preserves (ops : List POp) : ∀ (s : PState),
    (∀ id ∈ liveIds s, 1 ≤ id ∧ id ≤ s.counter) →
    ((∀ id ∈ liveIds (s.run ops), 1 ≤ id ∧ id ≤ (s.run ops).counter) ∧
     s.counter ≤ (s.run ops).counter ∧
     ((liveIds s).Nodup → noAssignCopy ops → (liveIds (s.run ops)).Nodup) ∧
     ((∀ m ∈ s.models, (modelIds m).Nodup) →
       ∀ m2 ∈ (s.run ops).models, (modelIds m2).Nodup)) := by
  induction ops with
  | nil =>
    intro s hbounds
    exact ⟨hbounds, le_refl _, fun hnd _ => hnd, fun hpm => hpm⟩
  | cons op ops ih =>
    intro s hbounds
    have hstep := step_preserves s op hbounds
    have hrec := ih (s.step op) hstep.1
    refine ⟨hrec.1, le_trans hstep.2.1 hrec.2.1, ?_,
      fun hpm => hrec.2.2.2 (hstep.2.2.2 hpm)⟩
    intro hnd hnc
    have hnc1 : ∀ dst src, op ≠ POp.assignCopy dst src :=
      fun dst src h => hnc op (List.mem_cons_self _ _) dst src h
    have hnc2 : noAssignCopy ops :=
      fun o ho dst src => hnc o (List.mem_cons_of_mem _ ho) dst src
    exact hrec.2.2.1 (hstep.2.2.1 hnd hnc1) hnc2

/-- C3 (amended).  For every add/delete/copy mutation sequence from the
empty process: every live entity id is strictly positive and bounded by the
monotonically increasing process-wide counter; within each single live
Model the entity ids are pairwise unique at every observation point (the
scope of the debug validator); and the ids of ALL live entities across the
process are pairwise unique at every observation point provided no
assign_copy occurs — assign_copy intentionally clones a model with its ids
preserved, so after it two live models share ids (see the
counterexample). -/
theorem C3_id_registry_amended :
    (∀ ops : List POp,
      (∀ id ∈ liveIds (PState.init.run ops), 1 ≤ id ∧ id ≤ (PState.init.run ops).counter) ∧
      (∀ m ∈ (PState.init.run ops).models, (modelIds m).Nodup) ∧
      (noAssignCopy ops → (liveIds (PState.init.run ops)).Nodup)) ∧
    (∀ ops : List POp, ∀ op : POp,
      (PState.init.run ops).counter ≤ ((PState.init.run ops).step op).counter) := by
  have hinit : ∀ id ∈ liveIds PState.init, 1 ≤ id ∧ id ≤ PState.init.counter := by
    intro id hid
    simp [liveIds, PState.init] at hid
  constructor
  · intro ops
    have h := run_preserves ops PState.init hinit
    refine ⟨h.1, h.2.2.2 (by simp [PState.init]), fun hnc => h.2.2.1 (by simp [liveIds, PState.init]) hnc⟩
  · intro ops op
    exact (step_preserves (PState.init.run ops) op
      (run_preserves ops PState.init hinit).1).2.1

/-- Counterexample to C3 as stated.  The claim includes assign_copy among
the mutations after which all live entity ids stay pairwise unique; but
Model::assign_copy clones the source model with every id preserved (its own
comments say so: copy including the ID), so after creating two models and
copying the first onto the second, the two live models carry the same id. -/
theorem C3_counterexample :
    liveIds (PState.init.run [POp.newModel, POp.newModel, POp.assignCopy 1 0]) = [1, 1] ∧
    ¬ (liveIds (PState.init.run [POp.newModel, POp.newModel, POp.assignCopy 1 0])).Nodup := by
  decide

/-- Witness for C3 (amended) at a concrete mutation sequence covering the
add and delete operations: all invariants hold and the live ids are
pairwise distinct. -/
theorem C3_id_registry_amended_witness :
    liveIds (PState.init.run
      [POp.newModel, POp.addObject 0, POp.addVolume 0 0, POp.addInstance 0 0,
       POp.addMaterial 0 7, POp.addVolume 0 0, POp.deleteVolume 0 0 0]) =
      [1, 2, 7, 4, 5] ∧
    (liveIds (PState.init.run
      [POp.newModel, POp.addObject 0, POp.addVolume 0 0, POp.addInstance 0 0,
       POp.addMaterial 0 7, POp.addVolume 0 0, POp.deleteVolume 0 0 0])).Nodup := by
  constructor
  · rfl
  · refine (C3_id_registry_amended.1 _).2.2 ?_
    intro op hop dst src
    simp only [List.mem_cons, List.not_mem_nil, or_false] at hop
    rcases hop with rfl | rfl | rfl | rfl | rfl | rfl | rfl <;> simp

/-! ## C1: the plane cut -/

/-- The first component of ModelObject::cut as the concatenation of the two
conditionally pushed objects. -/
theorem cut_fst_structure (o : ModelObject) (inst_idx : ℕ) (z : ℚ) (ku kl rl : Bool) :
    (o.cut inst_idx z ku kl rl).1 =
      (if ku = true ∧ 0 < (o.volumes.filterMap (ModelObject.cutUpperVolume
          (o.cutInstanceMatrix inst_idx) (o.cutZLocal inst_idx z))).length
       then [o.cutUpperObject inst_idx z kl] else []) ++
      (if kl = true ∧ 0 < (o.volumes.filterMap (ModelObject.cutLowerVolume
          (o.cutInstanceMatrix inst_idx) (o.cutZLocal inst_idx z))).length
       then [o.cutLowerObject inst_idx z rl] else []) := by
  cases ku <;> cases kl <;> rfl

/-- The index-aware map preserves length (auxiliary, any start index). -/
theorem imap_go_length (f : ℕ → α → β) (l : List α) :
    ∀ n, (imap.go f n l).length = l.length := by
  induction l with
  | nil => intro n; rfl
  | cons a t ih => intro n; simp [imap.go, ih]

/-- The index-aware map preserves length. -/
theorem imap_length (f : ℕ → α → β) (l : List α) : (imap f l).length = l.length :=
  imap_go_length f l 0

/-- Element access of the index-aware map (auxiliary, any start index). -/
theorem imap_go_getD (f : ℕ → α → β) (da : α) (db : β) (l : List α) :
    ∀ n i, i < l.length → (imap.go f n l).getD i db = f (n + i) (l.getD i da) := by
  induction l with
  | nil => intro n i h; simp at h
  | cons a t ih =>
    intro n i h
    cases i with
    | zero => simp [imap.go]
    | succ j =>
      have hj : j < t.length := by simpa using h
      have harith : n + 1 + j = n + (j + 1) := by omega
      simp only [imap.go, List.getD_cons_succ]
      rw [ih (n + 1) j hj, harith]

/-- Element access of the index-aware map. -/
theorem imap_getD (f : ℕ → α → β) (da : α) (db : β) (l : List α) (i : ℕ)
    (h : i < l.length) : (imap f l).getD i db = f i (l.getD i da) := by
  have hg := imap_go_getD f da db l 0 i h
  simpa [imap] using hg

/-- Element access of List.map through getD at a valid index. -/
theorem map_getD (f : α → β) (da : α) (db : β) (l : List α) :
    ∀ i, i < l.length → (l.map f).getD i db = f (l.getD i da) := by
  induction l with
  | nil => intro i h; simp at h
  | cons a t ih =>
    intro i h
    cases i with
    | zero => simp
    | succ j =>
      have hj : j < t.length := by simpa using h
      simp only [List.map_cons, List.getD_cons_succ]
      exact ih j hj

/-- The instance list of the upper cut object: the original instances,
positionally reset to displaced offset plus Z-rotation. -/
theorem cutUpperObject_instances (o : ModelObject) (inst_idx : ℕ) (z : ℚ) (kl : Bool) :
    (o.cutUpperObject inst_idx z kl).instances =
      imap (fun i ii =>
        { ii with trafo :=
            { Trafo.idT with
              offset := ii.trafo.offset + Vec3.cwise
                (ModelObject.cutLowerBBoxAt o (o.cutInstanceMatrix inst_idx)
                  (o.cutZLocal inst_idx z) kl (o.instances.getD i default)).size
                ⟨-(1/2), -(1/2), 0⟩,
              rotation := ⟨0, 0, ii.trafo.rotation.z⟩ } }) o.instances := rfl

/-- The instance list of the lower cut object: the original instances,
reset to offset plus Z-rotation (plus the optional flip). -/
theorem cutLowerObject_instances (o : ModelObject) (inst_idx : ℕ) (z : ℚ) (rl : Bool) :
    (o.cutLowerObject inst_idx z rl).instances =
      o.instances.map (fun ii =>
        { ii with trafo :=
            { Trafo.idT with offset := ii.trafo.offset,
                             rotation := ⟨if rl = true then deg2rad 180 else 0, 0,
                                          ii.trafo.rotation.z⟩ } }) := rfl

/-- A filterMap has positive length exactly when some element maps to a
value. -/
theorem filterMap_length_pos_iff (f : α → Option β) (l : List α) :
    0 < (l.filterMap f).length ↔ ∃ a ∈ l, f a ≠ none := by
  rw [List.length_pos]
  constructor
  · intro h
    by_contra hc
    push_neg at hc
    exact h (List.filterMap_eq_nil_iff.mpr hc)
  · rintro ⟨a, ha, hfa⟩ hnil
    exact hfa (List.filterMap_eq_nil_iff.mp hnil a ha)

/-- When the loop of ModelObject::cut contributes an upper volume: always
for a non-model-part volume, and exactly on a non-empty repaired upper soup
for a model part. -/
theorem cutUpperVolume_ne_none_iff (M : Affine) (zc : ℚ) (v : ModelVolume) :
    ModelObject.cutUpperVolume M zc v ≠ none ↔
      (v.is_model_part = false ∨
        0 < facetsCount (ModelObject.cutUpperMesh M zc v)) := by
  cases hv : v.is_model_part with
  | false => simp [ModelObject.cutUpperVolume, hv]
  | true =>
    simp [ModelObject.cutUpperVolume, hv]
    omega

/-- The lower companion of cutUpperVolume_ne_none_iff. -/
theorem cutLowerVolume_ne_none_iff (M : Affine) (zc : ℚ) (v : ModelVolume) :
    ModelObject.cutLowerVolume M zc v ≠ none ↔
      (v.is_model_part = false ∨
        0 < facetsCount (ModelObject.cutLowerMesh M zc v)) := by
  cases hv : v.is_model_part with
  | false => simp [ModelObject.cutLowerVolume, hv]
  | true =>
    simp [ModelObject.cutLowerVolume, hv]
    omega

/-- C1 (amended).  ModelObject::cut returns 0, 1 or 2 new objects — the
upper then the lower — but a part is present exactly when it was requested
and SOME volume survives into it: every non-model-part volume (modifiers,
enforcers, blockers) survives unconditionally, a model-part volume survives
exactly when its cut-and-repaired soup is non-empty (the claim's
model-part-only presence criterion misses the modifiers: an object with
only modifier volumes still yields a part).  Every new instance carries the
identity scaling, mirror and raw-linear part and keeps only the original
Z-rotation (plus the lower flip), as claimed; but the upper object's
instance offsets are NOT the original translations: each is displaced by
minus half of the per-instance lower bounding-box size on X and Y.  The
lower object's instances do keep the original offsets. -/
theorem C1_cut_amended (o : ModelObject) (inst_idx : ℕ) (z : ℚ) (ku kl rl : Bool) :
    (o.cut inst_idx z ku kl rl).1.length ≤ 2 ∧
    (o.cut inst_idx z ku kl rl).1 =
      (if ku = true ∧ 0 < (o.volumes.filterMap (ModelObject.cutUpperVolume
          (o.cutInstanceMatrix inst_idx) (o.cutZLocal inst_idx z))).length
       then [o.cutUpperObject inst_idx z kl] else []) ++
      (if kl = true ∧ 0 < (o.volumes.filterMap (ModelObject.cutLowerVolume
          (o.cutInstanceMatrix inst_idx) (o.cutZLocal inst_idx z))).length
       then [o.cutLowerObject inst_idx z rl] else []) ∧
    (0 < (o.volumes.filterMap (ModelObject.cutUpperVolume
        (o.cutInstanceMatrix inst_idx) (o.cutZLocal inst_idx z))).length ↔
      ∃ v ∈ o.volumes, v.is_model_part = false ∨
        0 < facetsCount (ModelObject.cutUpperMesh
          (o.cutInstanceMatrix inst_idx) (o.cutZLocal inst_idx z) v)) ∧
    (0 < (o.volumes.filterMap (ModelObject.cutLowerVolume
        (o.cutInstanceMatrix inst_idx) (o.cutZLocal inst_idx z))).length ↔
      ∃ v ∈ o.volumes, v.is_model_part = false ∨
        0 < facetsCount (ModelObject.cutLowerMesh
          (o.cutInstanceMatrix inst_idx) (o.cutZLocal inst_idx z) v)) ∧
    ((o.cutUpperObject inst_idx z kl).instances.length = o.instances.length ∧
     (o.cutLowerObject inst_idx z rl).instances.length = o.instances.length) ∧
    (∀ i, i < o.instances.length →
      ((o.cutUpperObject inst_idx z kl).instances.getD i default).trafo =
        { Trafo.idT with
          offset := (o.instances.getD i default).trafo.offset + Vec3.cwise
            (ModelObject.cutLowerBBoxAt o (o.cutInstanceMatrix inst_idx)
              (o.cutZLocal inst_idx z) kl (o.instances.getD i default)).size
            ⟨-(1/2), -(1/2), 0⟩,
          rotation := ⟨0, 0, (o.instances.getD i default).trafo.rotation.z⟩ } ∧
      ((o.cutLowerObject inst_idx z rl).instances.getD i default).trafo =
        { Trafo.idT with
          offset := (o.instances.getD i default).trafo.offset,
          rotation := ⟨if rl = true then deg2rad 180 else 0, 0,
                       (o.instances.getD i default).trafo.rotation.z⟩ }) := by
  refine ⟨?_, cut_fst_structure o inst_idx z ku kl rl, ?_, ?_, ⟨?_, ?_⟩, ?_⟩
  · rw [cut_fst_structure o inst_idx z ku kl rl, List.length_append]
    split_ifs <;> simp
  · rw [filterMap_length_pos_iff]
    exact exists_congr fun v => and_congr_right fun _ => cutUpperVolume_ne_none_iff _ _ v
  · rw [filterMap_length_pos_iff]
    exact exists_congr fun v => and_congr_right fun _ => cutLowerVolume_ne_none_iff _ _ v
  · rw [cutUpperObject_instances, imap_length]
  · rw [cutLowerObject_instances, List.length_map]
  · intro i hi
    constructor
    · rw [cutUpperObject_instances, imap_getD _ default default o.instances i hi]
    · rw [cutLowerObject_instances, map_getD _ default default o.instances i hi]

set_option maxRecDepth 100000 in
/-- Counterexample to C1 as stated.  First, an object with only a modifier
volume: the claim allows a part only when a cut-and-repaired MODEL-PART
mesh is non-empty, but the source carries modifiers over unconditionally,
so cutting the modifier-only object still returns one object.  Second, the
claimed instance property fails on the upper part: cutting the identity-
placed unit cube at half height (both halves kept) yields two objects whose
original instance translation was zero, yet the upper object's instance is
displaced to (-1/2, -1/2, 0) — minus half the lower-part bounding-box XY
size — instead of keeping the original translation. -/
theorem C1_counterexample :
    ((∀ v ∈ c1ModifierObject.volumes, v.is_model_part = false) ∧
     (c1ModifierObject.cut 0 0 true false false).1.length = 1) ∧
    ((c1CubeObject.cut 0 (1/2) true true false).1.length = 2 ∧
     (∀ ii ∈ c1CubeObject.instances, ii.trafo.offset = Vec3.zero) ∧
     (((c1CubeObject.cut 0 (1/2) true true false).1.getD 0 default).instances.getD 0
        default).trafo.offset = ⟨-(1/2), -(1/2), 0⟩) := by
  refine ⟨⟨by decide, by with_unfolding_all rfl⟩,
          by with_unfolding_all rfl, by decide, by with_unfolding_all rfl⟩

set_option maxRecDepth 100000 in
/-- Witness for C1 (amended) at the concrete cube: the upper instance is
displaced to (-1/2, -1/2, 0) while the lower instance keeps the zero
offset. -/
theorem C1_cut_amended_witness :
    0 < c1CubeObject.instances.length ∧
    ((c1CubeObject.cutUpperObject 0 (1/2) true).instances.getD 0 default).trafo.offset =
      ⟨-(1/2), -(1/2), 0⟩ ∧
    ((c1CubeObject.cutLowerObject 0 (1/2) false).instances.getD 0 default).trafo.offset =
      Vec3.zero := by
  have h := (C1_cut_amended c1CubeObject 0 (1/2) true true false).2.2.2.2.2 0 (by decide)
  refine ⟨by decide, ?_, ?_⟩
  · rw [h.1]
    with_unfolding_all rfl
  · rw [h.2]
    with_unfolding_all rfl

/-- C7: generating a support tree from the empty anchor point set succeeds
without error (the all-points-on-surface guard is vacuous) and yields a
support mesh with zero facets; slicing that tree at any layer heights
returns only empty layers (the empty mesh has an undefined bounding box, so
the level list itself is empty). -/
theorem C7_empty_point_set (em : Mesh) (cfg : SupportConfig) (layerh init_layerh : ℚ) :
    ∃ t : SLASupportTree, SLASupportTree.generate [] em cfg = Except.ok t ∧
      facetsCount t.supportMesh = 0 ∧
      ∀ layer ∈ t.slice layerh init_layerh, layer = [] := by
  refine ⟨⟨[]⟩, rfl, rfl, ?_⟩
  intro layer hl
  simp only [SLASupportTree.slice, List.mem_map] at hl
  obtain ⟨h, _, rfl⟩ := hl
  rfl
